import Mathlib

/-!
# gdb/ser-emscripten.c : the websocket serial backend

A shallow embedding of the session table, the four websocket callbacks and the
blocking adapter (ws_open, ws_close, ws_readchar, ws_write, ws_flush_input) of
`gdb/ser-emscripten.c`, followed by theorems about them.

Conventions of the embedding

* `uint32_t` and `size_t` values are natural numbers, reduced with `u32` where the
  C code computes them; `int` values are integers, reduced with `i32`.
* The static array `sockets` is a list of `MAX_SOCKETS` slots; a pointer
  `&sockets[k]` is the integer `k`. Dereferencing a pointer outside the array has
  no defined behaviour in C: the embedding then yields `none`.
* A heap block is the list of its cells; a cell is `some b` for a byte with a
  determinate value and `none` for the indeterminate content of freshly
  reallocated storage. The `NULL` block is the empty list.
* The calls made to the emscripten library are recorded, in order, in the
  `trace` of the world. What the library does on its side enters as arguments:
  the value returned by a call, and, for every `emscripten_sleep`, the list of
  callbacks the event loop dispatches during that sleep (the schedule). A
  blocking call whose schedule ends while it is still waiting yields `none`.
-/

namespace SerEmscripten

/-! ## Machine integers and storage -/

/-- Capacity of the static session table, the macro `MAX_SOCKETS`. -/
def MAX_SOCKETS : Nat := 10

/-- The C type `uint8_t`. -/
abbrev uint8_t : Type := Fin 256

/-- One cell of heap storage: `some b` holds the byte `b`, `none` is indeterminate. -/
abbrev cell : Type := Option uint8_t

/-- Reduction to the range of `uint32_t` (unsigned arithmetic wraps around). -/
def u32 (n : Nat) : Nat := n % 2 ^ 32

/-- Reduction to the range of a 32-bit two's complement `int`. -/
def i32 (x : Int) : Int := (x + 2 ^ 31) % 2 ^ 32 - 2 ^ 31

/-- Modelled from the spec: `xcalloc` of gdb's utility library, which is not part of
this source file. It returns a fresh block of `n * size` zero bytes (the session's
byte buffer is "created empty"). -/
def xcalloc (n size : Nat) : List cell := List.replicate (n * size) (some 0)

/-- Modelled from the spec: `xrealloc` of gdb's utility library, which is not part of
this source file. "The store is reallocated to" the requested size and "existing
bytes are preserved": the block keeps its first `min old size` cells, the cells
beyond them are indeterminate. -/
def xrealloc (block : List cell) (size : Nat) : List cell :=
  block.take size ++ List.replicate (size - block.length) none

/-- The C library's `memcpy (&dest[off], src, n)`. It is defined only when the `n` bytes
lie inside both blocks. -/
def memcpy (dest : List cell) (off : Nat) (src : List uint8_t) (n : Nat) :
    Option (List cell) :=
  if off + n ≤ dest.length ∧ n ≤ src.length then
    some (dest.take off ++ (src.take n).map some ++ dest.drop (off + n))
  else none

/-! ## Data model -/

/-- The C struct `ws_state`, one slot of the session table. The field `scb` holds the
address of the owning `struct serial` (0 is `NULL`), `buffer` the heap block the
pointer of that name refers to. -/
structure ws_state where
  scb : Nat
  ws : Int
  opened : Int
  buffer : List cell
  buffer_alloc : Nat
  buffer_read : Nat
  buffer_write : Nat
deriving DecidableEq, Repr

/-- The part of gdb's `struct serial` this backend uses: the field `fd`. The field
`addr` stands for the address of the object, which `ws_open` stores in its slot. -/
structure serial where
  addr : Nat
  fd : Int
deriving DecidableEq, Repr

/-- The fields of `EmscriptenWebSocketMessageEvent` read by `onmessage`. -/
structure EmscriptenWebSocketMessageEvent where
  data : List uint8_t
  isText : Bool
deriving DecidableEq, Repr

/-- The field `numBytes` of a message event: the length of its payload. -/
def EmscriptenWebSocketMessageEvent.numBytes (e : EmscriptenWebSocketMessageEvent) : Nat :=
  e.data.length

/-- A call made by this file to the emscripten library, with its arguments (and, for
`websocket_new`, the socket it returned). A callback registration records the
`userData` pointer it binds, as a slot index. -/
inductive LibCall where
  | websocket_new (url : String) (ws : Int)
  | set_onopen_callback (ws : Int) (userData : Int)
  | set_onerror_callback (ws : Int) (userData : Int)
  | set_onclose_callback (ws : Int) (userData : Int)
  | set_onmessage_callback (ws : Int) (userData : Int)
  | websocket_send_binary (ws : Int) (buf : List uint8_t) (count : Nat)
  | websocket_delete (ws : Int)
  | sleep (ms : Nat)
deriving DecidableEq, Repr

/-- The global state: the static array `sockets`, the counter `nsockets`, and the
record of the library calls made so far. -/
structure World where
  sockets : List ws_state
  nsockets : Nat
  trace : List LibCall
deriving DecidableEq, Repr

/-- A slot as static storage initialises it: every field zero, `buffer` is `NULL`. -/
def ws_state_zero : ws_state :=
  { scb := 0, ws := 0, opened := 0, buffer := [], buffer_alloc := 0,
    buffer_read := 0, buffer_write := 0 }

/-- The state at program start: `sockets` zero-initialised, `nsockets = 0`. -/
def world_init : World :=
  { sockets := List.replicate MAX_SOCKETS ws_state_zero, nsockets := 0, trace := [] }

/-- The array element `sockets[k]`; undefined when `k` is outside the array. -/
def World.slot (w : World) (k : Nat) : Option ws_state :=
  if k < MAX_SOCKETS then w.sockets[k]? else none

/-- The world in which `sockets[k]` has been assigned `s`. -/
def World.set_slot (w : World) (k : Nat) (s : ws_state) : World :=
  { w with sockets := w.sockets.set k s }

/-- Read the slot the pointer `p` refers to; undefined when `p` is outside the array. -/
def load (w : World) (p : Int) : Option ws_state :=
  if 0 ≤ p then w.slot p.toNat else none

/-- Write the slot the pointer `p` refers to; undefined when `p` is outside the array. -/
def store (w : World) (p : Int) (s : ws_state) : Option World :=
  match load w p with
  | none => none
  | some _ => some (w.set_slot p.toNat s)

/-! ## The event sink

Each handler returns `EM_TRUE`; the embedding keeps its effect on the state. -/

/-- The callback `onopen`: `ws_state->opened = 1` on the slot `userData` points to. -/
def onopen (userData : Int) (w : World) : Option World :=
  match load w userData with
  | none => none
  | some s => store w userData { s with opened := 1 }

/-- The callback `onerror`: it casts `userData` and does nothing else. -/
def onerror (_userData : Int) (w : World) : Option World := some w

/-- The callback `onclose`: it casts `userData` and does nothing else. -/
def onclose (_userData : Int) (w : World) : Option World := some w

/-- Lines 131 to 140 of the source, the body of `onmessage` on the slot `*ws_state`.
When the new write offset exceeds `buffer_alloc` the block is reallocated to
`buffer_write + numBytes + 1000` (`buffer_alloc` itself is not assigned); then the
payload is copied to `buffer[buffer_write ..]` and `buffer_write` advances. All
sums are computed in `uint32_t`. -/
def onmessage_slot (e : EmscriptenWebSocketMessageEvent) (s : ws_state) : Option ws_state :=
  let buffer :=
    if u32 (s.buffer_write + e.numBytes) > s.buffer_alloc then
      xrealloc s.buffer (u32 (s.buffer_write + e.numBytes + 1000))
    else s.buffer
  match memcpy buffer s.buffer_write e.data e.numBytes with
  | none => none
  | some buffer1 =>
    some { s with buffer := buffer1, buffer_write := u32 (s.buffer_write + e.numBytes) }

/-- The callback `onmessage`: the append of `onmessage_slot` on the slot `userData`
points to. (The test of `isText` only prints.) -/
def onmessage (e : EmscriptenWebSocketMessageEvent) (userData : Int) (w : World) :
    Option World :=
  match load w userData with
  | none => none
  | some s =>
    match onmessage_slot e s with
    | none => none
    | some s1 => store w userData s1

/-- A callback invocation by the event loop: which handler runs (`opened` runs
`onopen`, `error` runs `onerror`, `closed` runs `onclose`, `message` runs
`onmessage`), the `userData` pointer it was registered with, and for a message
the event. -/
inductive Callback where
  | opened (userData : Int)
  | error (userData : Int)
  | closed (userData : Int)
  | message (userData : Int) (e : EmscriptenWebSocketMessageEvent)
deriving DecidableEq, Repr

/-- Run one callback on the world. -/
def Callback.run (cb : Callback) (w : World) : Option World :=
  match cb with
  | Callback.opened p => onopen p w
  | Callback.error p => onerror p w
  | Callback.closed p => onclose p w
  | Callback.message p e => onmessage e p w

/-- Run a list of callbacks in order. -/
def dispatch : List Callback → World → Option World
  | [], w => some w
  | cb :: rest, w => (cb.run w).bind (dispatch rest)

/-- The library call `emscripten_sleep (ms)`: the call is recorded, then the event
loop dispatches the callbacks `cbs` before control returns. -/
def emscripten_sleep (ms : Nat) (cbs : List Callback) (w : World) : Option World :=
  dispatch cbs { w with trace := w.trace ++ [LibCall.sleep ms] }

/-! ## The blocking adapter -/

/-- The function `get_ws_state`: the range test only prints (and `PRINTF` expands to
nothing), the result is always `&sockets[scb->fd - 20]`. -/
def get_ws_state (scb : serial) : Int := scb.fd - 20

/-- The loop `while (!sockets[nsockets].opened) emscripten_sleep (100);` of `ws_open`.
Each sleep consumes one entry of the schedule; when the schedule is used up and
the slot is still not opened, the call has not returned. -/
def ws_open_wait : List (List Callback) → World → Option World
  | [], w =>
    match w.slot w.nsockets with
    | none => none
    | some s => if s.opened = 0 then none else some w
  | cbs :: rest, w =>
    match w.slot w.nsockets with
    | none => none
    | some s =>
      if s.opened = 0 then
        match emscripten_sleep 100 cbs w with
        | none => none
        | some w1 => ws_open_wait rest w1
      else some w

/-- The function `ws_open`. `is_supported` is the value of
`emscripten_websocket_is_supported ()` (a query without effect, not recorded in
the trace), `new_ws` the socket returned by `emscripten_websocket_new`, `sched`
the schedule of the sleeps of the wait loop. The result is the return value, the
updated `*scb` and the new world. -/
def ws_open (is_supported : Bool) (new_ws : Int) (sched : List (List Callback))
    (w : World) (scb : serial) (name : String) : Option (Int × serial × World) :=
  if !is_supported then some (-1, scb, w)
  else if w.nsockets ≥ MAX_SOCKETS then some (-1, scb, w)
  else
    let scb1 : serial := { scb with fd := 20 + (w.nsockets : Int) }
    match w.slot w.nsockets with
    | none => none
    | some s =>
      let s1 : ws_state :=
        { s with scb := scb1.addr, opened := 0, buffer := xcalloc 1000 1,
                 buffer_alloc := 1000, buffer_read := 0, buffer_write := 0 }
      let s2 : ws_state := { s1 with ws := new_ws }
      let w1 : World := w.set_slot w.nsockets s2
      let p : Int := (w.nsockets : Int)
      let w2 : World :=
        { w1 with trace := w1.trace ++
            [LibCall.websocket_new name new_ws,
             LibCall.set_onopen_callback new_ws p,
             LibCall.set_onerror_callback new_ws p,
             LibCall.set_onclose_callback new_ws p,
             LibCall.set_onmessage_callback new_ws p] }
      match ws_open_wait sched w2 with
      | none => none
      | some w3 => some (0, scb1, { w3 with nsockets := w3.nsockets + 1 })

/-- The function `ws_close`: nothing for `fd == -1`; otherwise the slot's socket is
deleted and `scb->fd` becomes -1. The table itself is not written. -/
def ws_close (w : World) (scb : serial) : Option (serial × World) :=
  if scb.fd = -1 then some (scb, w)
  else
    match load w (get_ws_state scb) with
    | none => none
    | some s =>
      some ({ scb with fd := -1 },
            { w with trace := w.trace ++ [LibCall.websocket_delete s.ws] })

/-- What one pass through the loop of `ws_readchar` comes to: the function returns
`r` in world `w`, or it calls `emscripten_sleep (100)` and tests the loop condition
again, the local `countdown` having the given value. -/
inductive Iter where
  | ret (r : Int) (w : World)
  | sleep (countdown : Int)
deriving DecidableEq, Repr

/-- One pass through `ws_readchar` from the loop condition on, at slot pointer `p`:
the three timeout cases while `buffer_read == buffer_write`, and otherwise the
final `return ws_state->buffer[ws_state->buffer_read++]`. -/
def ws_readchar_iter (p timeout countdown : Int) (w : World) : Option Iter :=
  match load w p with
  | none => none
  | some s =>
    if s.buffer_read = s.buffer_write then
      if timeout = 0 then some (Iter.ret (-2) w)
      else if timeout < 0 then some (Iter.sleep countdown)
      else
        let countdown1 := i32 (countdown - 1)
        if countdown1 < 0 then some (Iter.ret (-2) w) else some (Iter.sleep countdown1)
    else
      match s.buffer[s.buffer_read]? with
      | some (some b) =>
        match store w p { s with buffer_read := u32 (s.buffer_read + 1) } with
        | none => none
        | some w1 => some (Iter.ret ((b.val : Nat) : Int) w1)
      | _ => none

/-- The loop of `ws_readchar`: passes of `ws_readchar_iter`, each sleep consuming one
entry of the schedule; when the schedule is used up and the pass would sleep, the
call has not returned. -/
def ws_readchar_loop (p timeout : Int) :
    List (List Callback) → Int → World → Option (Int × World)
  | [], countdown, w =>
    match ws_readchar_iter p timeout countdown w with
    | some (Iter.ret r w1) => some (r, w1)
    | _ => none
  | cbs :: rest, countdown, w =>
    match ws_readchar_iter p timeout countdown w with
    | none => none
    | some (Iter.ret r w1) => some (r, w1)
    | some (Iter.sleep countdown1) =>
      match emscripten_sleep 100 cbs w with
      | none => none
      | some w1 => ws_readchar_loop p timeout rest countdown1 w1

/-- The function `ws_readchar`: `countdown = timeout * 10` in `int` arithmetic, then
the wait loop; the result is -2 on timeout, else the byte at `buffer_read`, which
is then advanced. -/
def ws_readchar (sched : List (List Callback)) (w : World) (scb : serial) (timeout : Int) :
    Option (Int × World) :=
  let ws_state := get_ws_state scb
  let countdown := i32 (timeout * 10)
  ws_readchar_loop ws_state timeout sched countdown w

/-- The function `ws_write`: one call of `emscripten_websocket_send_binary` on the
slot's socket; its result `send_result` is dropped and 0 is returned. -/
def ws_write (send_result : Int) (w : World) (scb : serial) (buf : List uint8_t)
    (count : Nat) : Option (Int × World) :=
  match load w (get_ws_state scb) with
  | none => none
  | some s =>
    let _status := send_result
    some (0, { w with trace := w.trace ++ [LibCall.websocket_send_binary s.ws buf count] })

/-- The function `ws_flush_input`: `buffer_read = buffer_write = 0`, result 0. -/
def ws_flush_input (w : World) (scb : serial) : Option (Int × World) :=
  match load w (get_ws_state scb) with
  | none => none
  | some s =>
    match store w (get_ws_state scb) { s with buffer_read := 0, buffer_write := 0 } with
    | none => none
    | some w1 => some (0, w1)

/-! ## Runs of operations, and the predicates the theorems use -/

/-- Successive calls of `ws_readchar` on one handle, each with its own timeout and
schedule; the results are collected in call order. -/
def ws_readchar_seq :
    List (Int × List (List Callback)) → World → serial → Option (List Int × World)
  | [], w, _ => some ([], w)
  | (timeout, sched) :: rest, w, scb =>
    match ws_readchar sched w scb timeout with
    | none => none
    | some (r, w1) =>
      match ws_readchar_seq rest w1 scb with
      | none => none
      | some (rs, w2) => some (r :: rs, w2)

/-- The arguments of one call of `ws_open`, with what the library answers to it. -/
structure OpenCall where
  is_supported : Bool
  new_ws : Int
  sched : List (List Callback)
  scb : serial
  name : String
deriving DecidableEq, Repr

/-- Successive calls of `ws_open`; each result is the return value with the updated
`struct serial` of that call. -/
def ws_open_seq : List OpenCall → World → Option (List (Int × serial) × World)
  | [], w => some ([], w)
  | c :: rest, w =>
    match ws_open c.is_supported c.new_ws c.sched w c.scb c.name with
    | none => none
    | some (r, scb1, w1) =>
      match ws_open_seq rest w1 with
      | none => none
      | some (rs, w2) => some ((r, scb1) :: rs, w2)

/-- A run of sleeps of 100 ms, one per entry of the schedule. -/
def run_yields : List (List Callback) → World → Option World
  | [], w => some w
  | cbs :: rest, w =>
    match emscripten_sleep 100 cbs w with
    | none => none
    | some w1 => run_yields rest w1

/-- The slot at `p` exists and holds no unread byte (`buffer_read == buffer_write`). -/
def slot_empty (w : World) (p : Int) : Prop :=
  ∃ s, load w p = some s ∧ s.buffer_read = s.buffer_write

/-- The block behind `buffer` has room for what the cursors describe: it holds at least
`buffer_alloc` cells and at least `buffer_write` cells. -/
def buffer_ok (s : ws_state) : Prop :=
  s.buffer_alloc ≤ s.buffer.length ∧ s.buffer_write ≤ s.buffer.length

/-- The value `ws_readchar` returns for the byte `b`: the conversion of a `uint8_t`
to `int`. -/
def byte_result (b : uint8_t) : Int := ((b.val : Nat) : Int)

/-- The bytes of a sequence of message events, in delivery order. -/
def delivered_bytes (msgs : List EmscriptenWebSocketMessageEvent) : List uint8_t :=
  (msgs.map EmscriptenWebSocketMessageEvent.data).flatten

/-- A `struct serial` of the examples, not yet opened. -/
def demo_scb0 : serial := { addr := 100, fd := -1 }

/-- The same `struct serial` once `ws_open` has given it the first handle. -/
def demo_scb : serial := { addr := 100, fd := 20 }

/-- The first slot right after a `ws_open` that returned socket 7. -/
def demo_slot : ws_state :=
  { scb := 100, ws := 7, opened := 1, buffer := xcalloc 1000 1, buffer_alloc := 1000,
    buffer_read := 0, buffer_write := 0 }

/-- The world after one `ws_open` from program start, the `onopen` callback arriving
in the first sleep. -/
def demo_world : World :=
  match ws_open true 7 [[Callback.opened 0]] world_init demo_scb0 "ws://host" with
  | some (_, _, w) => w
  | none => world_init

/-- A message of 1500 bytes, more than the 1000 bytes `ws_open` allocates. -/
def demo_payload : EmscriptenWebSocketMessageEvent :=
  { data := List.replicate 1500 7, isText := false }

/-- The first slot after the single byte 9 has been delivered to the session just
opened. -/
def demo_slot_nine : ws_state :=
  { demo_slot with buffer := some 9 :: List.replicate 999 (some 0), buffer_write := 1 }

/-- Ten calls of `ws_open`: call `i` is answered socket `7 + i`, and its `onopen`
callback arrives in the first sleep. -/
def demo_calls : List OpenCall :=
  (List.range 10).map fun (i : Nat) =>
    { is_supported := true, new_ws := 7 + (i : Int), sched := [[Callback.opened (i : Int)]],
      scb := { addr := 100 + i, fd := -1 }, name := "ws://host" }

/-- What the ten calls of `demo_calls` return: each 0, with the handles 20 to 29. -/
def demo_handles : List (Int × serial) :=
  (List.range 10).map fun (i : Nat) => (0, { addr := 100 + i, fd := 20 + (i : Int) })

/-- The world after the ten calls of `demo_calls` from program start. -/
def demo_world10 : World :=
  match ws_open_seq demo_calls world_init with
  | some (_, w) => w
  | none => world_init

/-- The world after the ten calls of `demo_calls` and a `ws_close` of handle 23. -/
def demo_world_closed : World :=
  { demo_world10 with trace := demo_world10.trace ++ [LibCall.websocket_delete 10] }

/-! ## Sessions over time -/

/-- The `userData` pointer a callback invocation carries. -/
def Callback.userData : Callback → Int
  | Callback.opened p => p
  | Callback.error p => p
  | Callback.closed p => p
  | Callback.message p _ => p

/-- One change this file makes to a slot that is in use: `onopen` sets `opened`,
`onmessage` appends, `ws_readchar` pops a byte, `ws_flush_input` resets the
cursors. (The initialisation by `ws_open` is not among them: it creates the
session.) -/
inductive slot_step : ws_state → ws_state → Prop where
  | opened (s : ws_state) : slot_step s { s with opened := 1 }
  | message (e : EmscriptenWebSocketMessageEvent) (s s1 : ws_state) :
      onmessage_slot e s = some s1 → slot_step s s1
  | pop (s : ws_state) (b : uint8_t) :
      s.buffer_read ≠ s.buffer_write → s.buffer[s.buffer_read]? = some (some b) →
      slot_step s { s with buffer_read := u32 (s.buffer_read + 1) }
  | flush (s : ws_state) : slot_step s { s with buffer_read := 0, buffer_write := 0 }

/-- Any number of changes to a slot, one after the other. -/
def slot_steps : ws_state → ws_state → Prop := Relation.ReflTransGen slot_step

/-- The slot `ws_open` sets up before it waits: the fields it assigns at lines 168 to
177 of the source. -/
def fresh_slot (scb : serial) (new_ws : Int) : ws_state :=
  { scb := scb.addr, ws := new_ws, opened := 0, buffer := xcalloc 1000 1,
    buffer_alloc := 1000, buffer_read := 0, buffer_write := 0 }

/-- One thing that happens to the world: a call of one of the five adapter functions
with its arguments (and what the library answers), or a callback invoked by the
event loop. -/
inductive Op where
  | call_open (c : OpenCall)
  | call_close (scb : serial)
  | call_readchar (sched : List (List Callback)) (scb : serial) (timeout : Int)
  | call_write (send_result : Int) (scb : serial) (buf : List uint8_t) (count : Nat)
  | call_flush_input (scb : serial)
  | event (cb : Callback)

/-- The world after one operation. -/
def Op.run (op : Op) (w : World) : Option World :=
  match op with
  | Op.call_open c =>
    (ws_open c.is_supported c.new_ws c.sched w c.scb c.name).map fun r => r.2.2
  | Op.call_close scb => (ws_close w scb).map fun r => r.2
  | Op.call_readchar sched scb timeout => (ws_readchar sched w scb timeout).map fun r => r.2
  | Op.call_write send_result scb buf count =>
    (ws_write send_result w scb buf count).map fun r => r.2
  | Op.call_flush_input scb => (ws_flush_input w scb).map fun r => r.2
  | Op.event cb => cb.run w

/-- The world after a sequence of operations. -/
def run_ops : List Op → World → Option World
  | [], w => some w
  | op :: rest, w =>
    match op.run w with
    | none => none
    | some w1 => run_ops rest w1

/-- What holds of the buffer of every session in use: `buffer_alloc` is still the 1000
of `ws_open`, the block holds at least 1000 cells and at least `buffer_write`
cells, fewer than 2^32, and the read cursor is not ahead of the write cursor. -/
def slot_inv (s : ws_state) : Prop :=
  s.buffer_alloc = 1000 ∧ 1000 ≤ s.buffer.length ∧ s.buffer_write ≤ s.buffer.length ∧
    s.buffer.length < 2 ^ 32 ∧ s.buffer_read ≤ s.buffer_write

/-- The slots of `w1` come from those of `w` by changes of the kinds of `slot_step`. -/
def evolves (w w1 : World) : Prop :=
  ∀ k s, w.slot k = some s → ∃ s1, w1.slot k = some s1 ∧ slot_steps s s1

/-- The first slot when the single byte 0xFF has been delivered to the session just
opened. -/
def demo_slot_ff : ws_state :=
  { demo_slot with buffer := some 255 :: List.replicate 999 (some 0), buffer_write := 1 }

/-- A sequence of operations on the world `demo_world`: callbacks for the first session,
a read, a write and a flush on its handle, the opening of a second session, and
the close of the first. -/
def demo_ops : List Op :=
  [Op.event (Callback.message 0 ⟨[1, 2], false⟩), Op.event (Callback.error 0),
   Op.event (Callback.closed 0), Op.call_readchar [] demo_scb 0,
   Op.call_write 0 demo_scb [5] 1, Op.call_flush_input demo_scb,
   Op.call_open ⟨true, 8, [[Callback.opened 1]], ⟨101, -1⟩, "ws://other"⟩,
   Op.call_close demo_scb]

/-- A message whose length 2^32 - 500 fits `uint32_t` while length + 1000 does not. -/
def demo_payload_huge : EmscriptenWebSocketMessageEvent :=
  { data := List.replicate 4294966796 0, isText := false }

/-- A message of 1001 bytes, one more than `buffer_alloc` records. -/
def demo_payload_1001 : EmscriptenWebSocketMessageEvent :=
  { data := List.replicate 1001 7, isText := false }

/-- The call of `ws_open` that leads from program start to `demo_world`. -/
def demo_open_op : Op :=
  Op.call_open ⟨true, 7, [[Callback.opened 0]], demo_scb0, "ws://host"⟩

/-- The world reached from program start by `demo_open_op` and then `demo_ops`. -/
def demo_world_ops : World :=
  match run_ops (demo_open_op :: demo_ops) world_init with
  | some w => w
  | none => world_init

/-- The second slot in `demo_world_ops`: set up by `ws_open` and opened by `onopen`. -/
def demo_slot_second : ws_state :=
  { fresh_slot ⟨101, -1⟩ 8 with opened := 1 }

/-- The size of the block behind `buffer` of the slot at `p`. -/
def store_size (p : Int) (w : World) : Option Nat :=
  (load w p).map fun s => s.buffer.length

/-- The cursors and the recorded capacity of the slot at `p`: `buffer_read`,
`buffer_write`, `buffer_alloc`. -/
def cursors (p : Int) (w : World) : Option (Nat × Nat × Nat) :=
  (load w p).map fun s => (s.buffer_read, s.buffer_write, s.buffer_alloc)

/-- The condition of the `if` in `get_ws_state`, whose body only prints:
`scb->fd < 20 || scb->fd > 20 + MAX_SOCKETS`. -/
def get_ws_state_unexpected (scb : serial) : Bool :=
  decide (scb.fd < 20) || decide (scb.fd > 20 + (MAX_SOCKETS : Int))

/-- The world after `ws_close` of the one session of `demo_world`. -/
def demo_world_one_closed : World :=
  { demo_world with trace := demo_world.trace ++ [LibCall.websocket_delete 7] }

/-- The `struct serial` of the session of `demo_world` after `ws_close`. -/
def demo_scb_closed : serial := { addr := 100, fd := -1 }

/-- The handle an operation hands out: for a call of `ws_open` that returns 0 the
`struct serial` as the call leaves it, nothing for every other operation. -/
def Op.opened (op : Op) (w : World) : List serial :=
  match op with
  | Op.call_open c =>
    match ws_open c.is_supported c.new_ws c.sched w c.scb c.name with
    | some (r, scb1, _) => if r = 0 then [scb1] else []
    | none => []
  | _ => []

/-- The handles handed out by the successful calls of `ws_open` in a sequence of
operations, in order. -/
def opened_handles : List Op → World → List serial
  | [], _ => []
  | op :: rest, w =>
    match op.run w with
    | none => []
    | some w1 => op.opened w ++ opened_handles rest w1

/-- The world after the operations `demo_open_op`, `demo_ops` and a third `ws_open`. -/
def demo_world_third : World :=
  match ws_open true 9 [[Callback.opened 2]] demo_world_ops ⟨102, -1⟩ "ws://third" with
  | some (_, _, w) => w
  | none => world_init

/-! ## Basic facts: machine integers, slots -/

theorem u32_of_lt {n : Nat} (h : n < 2 ^ 32) : u32 n = n := by
  unfold u32; exact Nat.mod_eq_of_lt h

theorem list_set_self {α : Type} (l : List α) (i : Nat) (a : α) (h : l[i]? = some a) :
    l.set i a = l := by
  apply List.ext_getElem?
  intro j
  by_cases hij : i = j
  · subst hij
    rw [List.getElem?_set, h]
    simp [(List.getElem?_eq_some.mp h).1]
  · rw [List.getElem?_set_ne hij]

theorem slot_some_bounds {w : World} {k : Nat} {s : ws_state} (h : w.slot k = some s) :
    k < MAX_SOCKETS ∧ k < w.sockets.length ∧ w.sockets[k]? = some s := by
  unfold World.slot at h
  split at h
  · rename_i hk
    exact ⟨hk, (List.getElem?_eq_some.mp h).1, h⟩
  · cases h

theorem load_some_bounds {w : World} {p : Int} {s : ws_state} (h : load w p = some s) :
    0 ≤ p ∧ w.slot p.toNat = some s := by
  unfold load at h
  split at h
  · rename_i hp
    exact ⟨hp, h⟩
  · cases h

theorem load_natCast (w : World) (k : Nat) : load w (k : Int) = w.slot k := by
  unfold load
  simp

theorem store_of_load {w : World} {p : Int} {s : ws_state} (h : load w p = some s)
    (s1 : ws_state) : store w p s1 = some (w.set_slot p.toNat s1) := by
  unfold store
  rw [h]

theorem slot_set_slot_same {w : World} {k : Nat} {s : ws_state} (h : w.slot k = some s)
    (s1 : ws_state) : (w.set_slot k s1).slot k = some s1 := by
  obtain ⟨h1, h2, _⟩ := slot_some_bounds h
  unfold World.slot World.set_slot
  simp [h1, h2, List.getElem?_set]

theorem slot_set_slot_other (w : World) (k j : Nat) (s1 : ws_state) (hne : k ≠ j) :
    (w.set_slot k s1).slot j = w.slot j := by
  unfold World.slot World.set_slot
  simp [List.getElem?_set_ne hne]

theorem load_set_slot_same {w : World} {p : Int} {s : ws_state} (h : load w p = some s)
    (s1 : ws_state) : load (w.set_slot p.toNat s1) p = some s1 := by
  obtain ⟨h0, h1⟩ := load_some_bounds h
  unfold load
  rw [if_pos h0]
  exact slot_set_slot_same h1 s1

theorem set_slot_self {w : World} {p : Int} {s : ws_state} (h : load w p = some s) :
    w.set_slot p.toNat s = w := by
  obtain ⟨_, h1⟩ := load_some_bounds h
  obtain ⟨_, _, h3⟩ := slot_some_bounds h1
  unfold World.set_slot
  rw [list_set_self _ _ _ h3]

theorem set_slot_set_slot (w : World) (k : Nat) (s1 s2 : ws_state) :
    (w.set_slot k s1).set_slot k s2 = w.set_slot k s2 := by
  unfold World.set_slot
  simp [List.set_set]

/-! ## The append of `onmessage` -/

theorem onmessage_slot_spec (e : EmscriptenWebSocketMessageEvent) (s : ws_state)
    (hok : buffer_ok s) (hb : s.buffer_write + e.data.length + 1000 < 2 ^ 32) :
    ∃ B : List cell,
      onmessage_slot e s =
        some { s with buffer := B, buffer_write := s.buffer_write + e.data.length } ∧
      B.take (s.buffer_write + e.data.length) =
        s.buffer.take s.buffer_write ++ e.data.map some ∧
      s.buffer_alloc ≤ B.length ∧ s.buffer_write + e.data.length ≤ B.length := by
  obtain ⟨ha, hw⟩ := hok
  have h1 : u32 (s.buffer_write + e.data.length) = s.buffer_write + e.data.length :=
    u32_of_lt (by omega)
  have h2 : u32 (s.buffer_write + e.data.length + 1000)
      = s.buffer_write + e.data.length + 1000 := u32_of_lt hb
  unfold onmessage_slot EmscriptenWebSocketMessageEvent.numBytes
  rw [h1, h2]
  by_cases hg : s.buffer_write + e.data.length > s.buffer_alloc
  · simp only [hg, if_true]
    have hlen : (xrealloc s.buffer (s.buffer_write + e.data.length + 1000)).length
        = s.buffer_write + e.data.length + 1000 := by
      unfold xrealloc; simp; omega
    have htake : (xrealloc s.buffer (s.buffer_write + e.data.length + 1000)).take s.buffer_write
        = s.buffer.take s.buffer_write := by
      unfold xrealloc
      rw [List.take_append_of_le_length (by simp; omega), List.take_take]
      rw [Nat.min_eq_left (by omega)]
    unfold memcpy
    rw [if_pos ⟨by omega, le_refl _⟩]
    refine ⟨_, rfl, ?_, ?_, ?_⟩
    · rw [List.take_of_length_le (le_refl _), htake, List.append_assoc,
        ← List.append_assoc, List.take_append_of_le_length (by simp; omega)]
      apply List.take_of_length_le; simp
    · simp; omega
    · simp; omega
  · simp only [hg, if_false]
    unfold memcpy
    rw [if_pos ⟨by omega, le_refl _⟩]
    refine ⟨_, rfl, ?_, ?_, ?_⟩
    · rw [List.take_of_length_le (le_refl _), List.append_assoc,
        ← List.append_assoc, List.take_append_of_le_length (by simp; omega)]
      apply List.take_of_length_le; simp
    · simp; omega
    · simp; omega

theorem onmessage_spec (e : EmscriptenWebSocketMessageEvent) (w : World) (p : Int)
    (s : ws_state) (hs : load w p = some s)
    (hok : buffer_ok s) (hb : s.buffer_write + e.data.length + 1000 < 2 ^ 32) :
    ∃ B : List cell,
      onmessage e p w = some (w.set_slot p.toNat
          { s with buffer := B, buffer_write := s.buffer_write + e.data.length }) ∧
      B.take (s.buffer_write + e.data.length) =
        s.buffer.take s.buffer_write ++ e.data.map some ∧
      s.buffer_alloc ≤ B.length ∧ s.buffer_write + e.data.length ≤ B.length := by
  obtain ⟨B, h1, h2, h3, h4⟩ := onmessage_slot_spec e s hok hb
  refine ⟨B, ?_, h2, h3, h4⟩
  unfold onmessage
  rw [hs]
  simp only [h1]
  exact store_of_load hs _

/-! ## Reading when a byte is there, polling when none is -/

theorem readchar_iter_pop (w : World) (p : Int) (s : ws_state) (b : uint8_t) (timeout : Int)
    (c : Int)
    (hs : load w p = some s) (hne : s.buffer_read ≠ s.buffer_write)
    (hb : s.buffer[s.buffer_read]? = some (some b)) :
    ws_readchar_iter p timeout c w =
      some (Iter.ret (byte_result b)
        (w.set_slot p.toNat { s with buffer_read := u32 (s.buffer_read + 1) })) := by
  unfold ws_readchar_iter
  rw [hs]
  simp only [hne, if_false, hb]
  rw [store_of_load hs]
  rfl

theorem readchar_pop (w : World) (p : Int) (s : ws_state) (b : uint8_t) (timeout : Int)
    (sched : List (List Callback)) (c : Int)
    (hs : load w p = some s) (hne : s.buffer_read ≠ s.buffer_write)
    (hb : s.buffer[s.buffer_read]? = some (some b)) :
    ws_readchar_loop p timeout sched c w =
      some (byte_result b,
        w.set_slot p.toNat { s with buffer_read := u32 (s.buffer_read + 1) }) := by
  have h := readchar_iter_pop w p s b timeout c hs hne hb
  cases sched with
  | nil => rw [ws_readchar_loop, h]
  | cons cbs rest => rw [ws_readchar_loop, h]

theorem readchar_empty_poll (w : World) (p : Int) (s : ws_state)
    (sched : List (List Callback)) (c : Int)
    (hs : load w p = some s) (he : s.buffer_read = s.buffer_write) :
    ws_readchar_loop p 0 sched c w = some (-2, w) := by
  have h : ws_readchar_iter p 0 c w = some (Iter.ret (-2) w) := by
    unfold ws_readchar_iter
    rw [hs]
    simp [he]
  cases sched with
  | nil => rw [ws_readchar_loop, h]
  | cons cbs rest => rw [ws_readchar_loop, h]

theorem readchar_seq_bytes (scb : serial) (bytes : List uint8_t) :
    ∀ (calls : List (Int × List (List Callback))) (w : World) (s : ws_state),
      calls.length = bytes.length →
      load w (get_ws_state scb) = some s →
      s.buffer_read + bytes.length ≤ s.buffer_write →
      s.buffer_write < 2 ^ 32 →
      (s.buffer.drop s.buffer_read).take bytes.length = bytes.map some →
      ws_readchar_seq calls w scb =
        some (bytes.map byte_result,
          w.set_slot (get_ws_state scb).toNat
              { s with buffer_read := s.buffer_read + bytes.length }) := by
  induction bytes with
  | nil =>
    intro calls w s hc hs _ _ _
    have : calls = [] := List.eq_nil_of_length_eq_zero (by simpa using hc)
    subst this
    simp only [ws_readchar_seq, List.map_nil, List.length_nil, Nat.add_zero]
    rw [set_slot_self hs]
  | cons b bs ih =>
    intro calls w s hc hs hle hw hd
    match calls, hc with
    | (t, sched) :: cs, hc =>
      have hb : s.buffer[s.buffer_read]? = some (some b) := by
        have := congrArg (fun l => l[0]?) hd
        simpa [List.getElem?_take, List.getElem?_drop] using this
      have hne : s.buffer_read ≠ s.buffer_write := by
        simp only [List.length_cons] at hle; omega
      have hu : u32 (s.buffer_read + 1) = s.buffer_read + 1 :=
        u32_of_lt (by simp only [List.length_cons] at hle; omega)
      have hpop := readchar_pop w (get_ws_state scb) s b t sched (i32 (t * 10)) hs hne hb
      rw [hu] at hpop
      have hs1 := load_set_slot_same hs { s with buffer_read := s.buffer_read + 1 }
      have hd1 : (List.drop (s.buffer_read + 1) s.buffer).take bs.length = bs.map some := by
        have hlt : s.buffer_read < s.buffer.length := (List.getElem?_eq_some.mp hb).1
        rw [List.drop_eq_getElem_cons hlt, List.length_cons, List.take_succ_cons,
          List.map_cons] at hd
        exact (List.cons.inj hd).2
      have := ih cs _ { s with buffer_read := s.buffer_read + 1 }
        (by simpa using hc) hs1
        (by simp only [List.length_cons] at hle; show s.buffer_read + 1 + bs.length ≤ s.buffer_write; omega)
        hw hd1
      simp only [ws_readchar_seq, ws_readchar, hpop, this, List.map_cons, set_slot_set_slot,
        List.length_cons]
      congr 4
      omega

/-! ## Delivery of a sequence of messages -/

theorem dispatch_messages (p : Int) (msgs : List EmscriptenWebSocketMessageEvent) :
    ∀ (w : World) (s : ws_state), load w p = some s → buffer_ok s →
      s.buffer_write + (delivered_bytes msgs).length + 1000 < 2 ^ 32 →
      ∃ B : List cell,
        dispatch (msgs.map (Callback.message p)) w = some (w.set_slot p.toNat
          { s with buffer := B,
                   buffer_write := s.buffer_write + (delivered_bytes msgs).length }) ∧
        B.take (s.buffer_write + (delivered_bytes msgs).length) =
          s.buffer.take s.buffer_write ++ (delivered_bytes msgs).map some ∧
        s.buffer_alloc ≤ B.length ∧
        s.buffer_write + (delivered_bytes msgs).length ≤ B.length := by
  induction msgs with
  | nil =>
    intro w s hs hok _
    refine ⟨s.buffer, ?_, ?_, hok.1, ?_⟩
    · simp only [List.map_nil, dispatch, delivered_bytes, List.flatten_nil, List.length_nil,
        Nat.add_zero]
      rw [set_slot_self hs]
    · simp [delivered_bytes]
    · simpa [delivered_bytes] using hok.2
  | cons e es ih =>
    intro w s hs hok hb
    have hlen : (delivered_bytes (e :: es)).length
        = e.data.length + (delivered_bytes es).length := by
      simp [delivered_bytes]
    rw [hlen] at hb
    obtain ⟨B1, h1, h2, h3, h4⟩ := onmessage_spec e w p s hs hok (by omega)
    have hs1 := load_set_slot_same hs
      { s with buffer := B1, buffer_write := s.buffer_write + e.data.length }
    obtain ⟨B, g1, g2, g3, g4⟩ := ih _ _ hs1 ⟨h3, h4⟩
      (by show s.buffer_write + e.data.length + (delivered_bytes es).length + 1000 < 2 ^ 32
          omega)
    refine ⟨B, ?_, ?_, g3, ?_⟩
    · rw [set_slot_set_slot] at g1
      simp only [List.map_cons, dispatch, Callback.run, h1, Option.some_bind]
      rw [g1, hlen, Nat.add_assoc]
    · have g2' : B.take (s.buffer_write + e.data.length + (delivered_bytes es).length)
          = B1.take (s.buffer_write + e.data.length) ++ (delivered_bytes es).map some := g2
      rw [hlen, ← Nat.add_assoc, g2', h2]
      simp [delivered_bytes]
    · rw [hlen, ← Nat.add_assoc]; exact g4

/-- C1, with the bound the code needs. FIFO delivery: to a session whose buffer holds no
unread byte (as right after `ws_open`, where the write offset is 0), deliver any
sequence of `onmessage` callbacks, of total length L with
buffer_write + L + 1000 < 2^32; then L successive calls of `ws_readchar`, with any
timeouts and schedules, return exactly the delivered bytes in delivery order, and
a following `ws_readchar` with timeout 0 returns -2. -/
theorem fifo_delivery (w : World) (scb : serial) (s : ws_state)
    (msgs : List EmscriptenWebSocketMessageEvent)
    (calls : List (Int × List (List Callback)))
    (hs : load w (get_ws_state scb) = some s)
    (hempty : s.buffer_read = s.buffer_write)
    (hok : buffer_ok s)
    (hsize : s.buffer_write + (delivered_bytes msgs).length + 1000 < 2 ^ 32)
    (hcalls : calls.length = (delivered_bytes msgs).length) :
    ∃ w1 w2 : World,
      dispatch (msgs.map (Callback.message (get_ws_state scb))) w = some w1 ∧
      ws_readchar_seq calls w1 scb = some ((delivered_bytes msgs).map byte_result, w2) ∧
      ∀ sched, ws_readchar sched w2 scb 0 = some (-2, w2) := by
  obtain ⟨B, h1, h2, _, h4⟩ := dispatch_messages (get_ws_state scb) msgs w s hs hok hsize
  have hs1 := load_set_slot_same hs
    { s with buffer := B, buffer_write := s.buffer_write + (delivered_bytes msgs).length }
  have hd : (B.drop s.buffer_read).take (delivered_bytes msgs).length
      = (delivered_bytes msgs).map some := by
    have := congrArg (List.drop s.buffer_write) h2
    have hnil : List.drop s.buffer_write (List.take s.buffer_write s.buffer) = [] :=
      List.drop_eq_nil_of_le (by simp)
    rw [List.drop_take, List.drop_append_of_le_length (by simp; exact hok.2), hnil,
      List.nil_append] at this
    rw [hempty]
    simpa using this
  have hr := readchar_seq_bytes scb (delivered_bytes msgs) calls _ _ hcalls hs1
    (by show s.buffer_read + _ ≤ s.buffer_write + _; omega)
    (by show s.buffer_write + _ < 2 ^ 32; omega) hd
  rw [set_slot_set_slot] at hr
  refine ⟨_, _, h1, hr, ?_⟩
  intro sched
  have hs2 := load_set_slot_same hs
    { s with buffer := B, buffer_write := s.buffer_write + (delivered_bytes msgs).length,
             buffer_read := s.buffer_read + (delivered_bytes msgs).length }
  exact readchar_empty_poll _ _ _ sched _ hs2 (by show s.buffer_read + _ = s.buffer_write + _; omega)

/-- C1, at a concrete input: the session opened by `ws_open` at program start receives
the payloads 1,2,3 and 4,5; five reads with timeouts 0, 5, -1, 0, 3 return
1,2,3,4,5 and a further poll returns -2. -/
theorem fifo_delivery_witness :
    ∃ w1 w2 : World,
      dispatch ([⟨[1, 2, 3], false⟩, ⟨[4, 5], true⟩].map (Callback.message 0)) demo_world
        = some w1 ∧
      ws_readchar_seq [(0, []), (5, []), (-1, []), (0, [[]]), (3, [])] w1 demo_scb
        = some ([1, 2, 3, 4, 5], w2) ∧
      ∀ sched, ws_readchar sched w2 demo_scb 0 = some (-2, w2) :=
  fifo_delivery demo_world demo_scb demo_slot [⟨[1, 2, 3], false⟩, ⟨[4, 5], true⟩]
    [(0, []), (5, []), (-1, []), (0, [[]]), (3, [])]
    rfl rfl (by simp only [buffer_ok, demo_slot, xcalloc, List.length_replicate]; decide)
    (by decide) rfl

/-! ## Append across growth, poll, flush -/

theorem take_append_parts {α : Type} (B pre mid : List α) (n : Nat)
    (hpre : pre.length = n) (h : B.take (n + mid.length) = pre ++ mid) :
    B.take n = pre ∧ (B.drop n).take mid.length = mid := by
  subst hpre
  constructor
  · calc B.take pre.length = (B.take (pre.length + mid.length)).take pre.length := by
          rw [List.take_take, Nat.min_eq_left (Nat.le_add_right _ _)]
      _ = (pre ++ mid).take pre.length := by rw [h]
      _ = pre := List.take_left _ _
  · calc (B.drop pre.length).take mid.length
        = (B.take (pre.length + mid.length)).drop pre.length := by
          rw [List.drop_take, Nat.add_sub_cancel_left]
      _ = (pre ++ mid).drop pre.length := by rw [h]
      _ = mid := List.drop_left _ _

/-- C2, with the bound the code needs. Append across growth: on a session with read
offset r ≤ write offset w whose block holds at least `buffer_alloc` and w cells,
`onmessage` with a payload of length n, w + n + 1000 < 2^32, keeps the cells
[0, w) and the read offset,
stores the payload at [w, w+n) and sets the write offset to w + n, whether or not
it reallocates, and the block again holds `buffer_alloc` and `buffer_write` cells
(so the statement applies to the next message as well); the unread bytes followed
by the payload are then what the next reads return. -/
theorem append_across_growth (w : World) (scb : serial) (s : ws_state)
    (e : EmscriptenWebSocketMessageEvent) (unread : List uint8_t)
    (calls : List (Int × List (List Callback)))
    (hs : load w (get_ws_state scb) = some s)
    (hrw : s.buffer_read ≤ s.buffer_write)
    (hok : buffer_ok s)
    (hsize : s.buffer_write + e.data.length + 1000 < 2 ^ 32)
    (hun : (s.buffer.drop s.buffer_read).take (s.buffer_write - s.buffer_read)
      = unread.map some)
    (hcalls : calls.length = unread.length + e.data.length) :
    ∃ (B : List cell) (w1 w2 : World),
      onmessage e (get_ws_state scb) w = some w1 ∧
      w1 = w.set_slot (get_ws_state scb).toNat
        { s with buffer := B, buffer_write := s.buffer_write + e.data.length } ∧
      B.take s.buffer_write = s.buffer.take s.buffer_write ∧
      (B.drop s.buffer_write).take e.data.length = e.data.map some ∧
      buffer_ok { s with buffer := B, buffer_write := s.buffer_write + e.data.length } ∧
      ws_readchar_seq calls w1 scb = some ((unread ++ e.data).map byte_result, w2) := by
  obtain ⟨B, h1, h2, h3, h4⟩ := onmessage_spec e w (get_ws_state scb) s hs hok hsize
  have hlenw : (s.buffer.take s.buffer_write).length = s.buffer_write := by
    rw [List.length_take]; exact Nat.min_eq_left hok.2
  have h2' : B.take (s.buffer_write + (e.data.map some).length)
      = s.buffer.take s.buffer_write ++ e.data.map some := by
    rw [List.length_map]; exact h2
  obtain ⟨p1, p2⟩ := take_append_parts B _ _ s.buffer_write hlenw h2'
  rw [List.length_map] at p2
  have hulen : unread.length = s.buffer_write - s.buffer_read := by
    have := congrArg List.length hun
    rw [List.length_take, List.length_drop, List.length_map] at this
    have := hok.2
    omega
  have hd : (B.drop s.buffer_read).take (unread ++ e.data).length
      = (unread ++ e.data).map some := by
    have := congrArg (List.drop s.buffer_read) h2
    rw [List.drop_take, List.drop_append_of_le_length (by omega), List.drop_take, hun] at this
    rw [List.length_append, List.map_append, ← this]
    congr 1
    omega
  have hs1 := load_set_slot_same hs
    { s with buffer := B, buffer_write := s.buffer_write + e.data.length }
  have hr := readchar_seq_bytes scb (unread ++ e.data) calls _ _
    (by rw [List.length_append]; exact hcalls) hs1
    (by show s.buffer_read + (unread ++ e.data).length ≤ s.buffer_write + e.data.length
        rw [List.length_append]; omega)
    (by show s.buffer_write + e.data.length < 2 ^ 32; omega) hd
  exact ⟨B, _, _, h1, rfl, p1, p2, ⟨h3, h4⟩, hr⟩

/-- C2, at a concrete input: 1500 bytes delivered in one message to the buffer of 1000
bytes of a session just opened, then read back by 1500 polls. -/
theorem append_across_growth_witness :
    ∃ (B : List cell) (w1 w2 : World),
      onmessage demo_payload (get_ws_state demo_scb) demo_world = some w1 ∧
      w1 = demo_world.set_slot (get_ws_state demo_scb).toNat
        { demo_slot with buffer := B,
                         buffer_write := demo_slot.buffer_write + demo_payload.data.length } ∧
      B.take demo_slot.buffer_write = demo_slot.buffer.take demo_slot.buffer_write ∧
      (B.drop demo_slot.buffer_write).take demo_payload.data.length
        = demo_payload.data.map some ∧
      buffer_ok { demo_slot with
        buffer := B, buffer_write := demo_slot.buffer_write + demo_payload.data.length } ∧
      ws_readchar_seq (List.replicate 1500 (0, [])) w1 demo_scb
        = some (([] ++ demo_payload.data).map byte_result, w2) :=
  append_across_growth demo_world demo_scb demo_slot demo_payload []
    (List.replicate 1500 (0, []))
    rfl (by decide)
    (by simp only [buffer_ok, demo_slot, xcalloc, List.length_replicate]; decide)
    (by simp only [demo_slot, demo_payload, List.length_replicate]; decide) rfl
    (by simp only [demo_payload, List.length_replicate, List.length_nil])

/-- C3. Pure poll: when the session's buffer holds no unread byte, `ws_readchar` with
timeout 0 returns -2 and the world is unchanged; in particular no
`emscripten_sleep` is recorded, whatever the schedule offered. -/
theorem pure_poll (w : World) (scb : serial) (s : ws_state) (sched : List (List Callback))
    (hs : load w (get_ws_state scb) = some s)
    (hempty : s.buffer_read = s.buffer_write) :
    ws_readchar sched w scb 0 = some (-2, w) :=
  readchar_empty_poll w (get_ws_state scb) s sched _ hs hempty

/-- C3, at a concrete input: a poll on the session just opened, with a schedule that
would deliver a byte in its first sleep. -/
theorem pure_poll_witness :
    ws_readchar [[Callback.message 0 ⟨[9], false⟩]] demo_world demo_scb 0
      = some (-2, demo_world) :=
  pure_poll demo_world demo_scb demo_slot [[Callback.message 0 ⟨[9], false⟩]] rfl rfl

/-- C7. Flush discards input: on every session `ws_flush_input` returns 0 and sets both
cursors to 0 (nothing else changes), and an immediately following `ws_readchar`
with timeout 0 returns -2. -/
theorem flush_discards_input (w : World) (scb : serial) (s : ws_state)
    (hs : load w (get_ws_state scb) = some s) :
    ∃ w1 : World,
      ws_flush_input w scb = some (0, w1) ∧
      w1 = w.set_slot (get_ws_state scb).toNat { s with buffer_read := 0, buffer_write := 0 } ∧
      ∀ sched, ws_readchar sched w1 scb 0 = some (-2, w1) := by
  refine ⟨_, ?_, rfl, ?_⟩
  · unfold ws_flush_input
    rw [hs]
    simp only [store_of_load hs]
  · intro sched
    exact readchar_empty_poll _ _ _ sched _
      (load_set_slot_same hs { s with buffer_read := 0, buffer_write := 0 }) rfl

/-- C7, at a concrete input: the session that holds the unread byte 9 is flushed; the
flush returns 0 and the next poll returns -2. -/
theorem flush_discards_input_witness :
    ∃ w1 : World,
      ws_flush_input (demo_world.set_slot 0 demo_slot_nine) demo_scb = some (0, w1) ∧
      w1 = (demo_world.set_slot 0 demo_slot_nine).set_slot (get_ws_state demo_scb).toNat
        { demo_slot_nine with buffer_read := 0, buffer_write := 0 } ∧
      ∀ sched, ws_readchar sched w1 demo_scb 0 = some (-2, w1) :=
  flush_discards_input (demo_world.set_slot 0 demo_slot_nine) demo_scb demo_slot_nine rfl

/-! ## The wait loop of `ws_readchar` -/

theorem i32_of_range {x : Int} (h1 : -(2 ^ 31) ≤ x) (h2 : x < 2 ^ 31) : i32 x = x := by
  unfold i32
  omega

theorem callback_run_frame {cb : Callback} {w w1 : World} (h : cb.run w = some w1) :
    w1.trace = w.trace ∧ w1.nsockets = w.nsockets ∧ w1.sockets.length = w.sockets.length := by
  have hstore : ∀ (p : Int) (s : ws_state), store w p s = some w1 →
      w1.trace = w.trace ∧ w1.nsockets = w.nsockets ∧
        w1.sockets.length = w.sockets.length := by
    intro p s hst
    unfold store at hst
    split at hst
    · cases hst
    · cases hst
      simp [World.set_slot]
  cases cb with
  | opened p =>
    simp only [Callback.run, onopen] at h
    split at h
    · cases h
    · exact hstore _ _ h
  | error p =>
    simp only [Callback.run, onerror, Option.some.injEq] at h
    subst h; exact ⟨rfl, rfl, rfl⟩
  | closed p =>
    simp only [Callback.run, onclose, Option.some.injEq] at h
    subst h; exact ⟨rfl, rfl, rfl⟩
  | message p e =>
    simp only [Callback.run, onmessage] at h
    split at h
    · cases h
    · split at h
      · cases h
      · exact hstore _ _ h

theorem dispatch_frame (cbs : List Callback) :
    ∀ {w w1 : World}, dispatch cbs w = some w1 →
      w1.trace = w.trace ∧ w1.nsockets = w.nsockets ∧
        w1.sockets.length = w.sockets.length := by
  induction cbs with
  | nil =>
    intro w w1 h
    simp only [dispatch, Option.some.injEq] at h
    subst h; exact ⟨rfl, rfl, rfl⟩
  | cons cb rest ih =>
    intro w w1 h
    simp only [dispatch] at h
    cases hcb : cb.run w with
    | none => rw [hcb] at h; cases h
    | some w0 =>
      rw [hcb, Option.some_bind] at h
      obtain ⟨a1, a2, a3⟩ := callback_run_frame hcb
      obtain ⟨b1, b2, b3⟩ := ih h
      exact ⟨b1.trans a1, b2.trans a2, b3.trans a3⟩

theorem emscripten_sleep_frame {ms : Nat} {cbs : List Callback} {w w1 : World}
    (h : emscripten_sleep ms cbs w = some w1) :
    w1.trace = w.trace ++ [LibCall.sleep ms] ∧ w1.nsockets = w.nsockets ∧
      w1.sockets.length = w.sockets.length := by
  unfold emscripten_sleep at h
  obtain ⟨a1, a2, a3⟩ := dispatch_frame cbs h
  exact ⟨a1, a2, a3⟩

theorem run_yields_frame (sched : List (List Callback)) :
    ∀ {w w1 : World}, run_yields sched w = some w1 →
      w1.trace = w.trace ++ List.replicate sched.length (LibCall.sleep 100) ∧
        w1.nsockets = w.nsockets ∧ w1.sockets.length = w.sockets.length := by
  induction sched with
  | nil =>
    intro w w1 h
    simp only [run_yields, Option.some.injEq] at h
    subst h; simp
  | cons cbs rest ih =>
    intro w w1 h
    rw [run_yields] at h
    cases hs : emscripten_sleep 100 cbs w with
    | none => rw [hs] at h; cases h
    | some w0 =>
      rw [hs] at h
      obtain ⟨a1, a2, a3⟩ := emscripten_sleep_frame hs
      obtain ⟨b1, b2, b3⟩ := ih h
      refine ⟨?_, b2.trans a2, b3.trans a3⟩
      rw [b1, a1, List.length_cons, List.replicate_succ, List.append_assoc]
      rfl

/-- The hypothesis "the buffer at `p` holds no unread byte at the call and after each of
the first `k - 1` sleeps" of the wait lemmas, shifted by one sleep. -/
theorem stays_empty_shift {p : Int} {cbs : List Callback} {rest : List (List Callback)}
    {w w1 : World} {k : Nat} (hs : emscripten_sleep 100 cbs w = some w1)
    (h : ∀ j, j < k + 1 →
      ∃ wj, run_yields ((cbs :: rest).take j) w = some wj ∧ slot_empty wj p) :
    ∀ j, j < k → ∃ wj, run_yields (rest.take j) w1 = some wj ∧ slot_empty wj p := by
  intro j hj
  obtain ⟨wj, h1, h2⟩ := h (j + 1) (by omega)
  rw [List.take_succ_cons, run_yields, hs] at h1
  exact ⟨wj, h1, h2⟩

theorem readchar_loop_wait_neg (p timeout : Int) (hT : timeout < 0) :
    ∀ (k : Nat) (sched : List (List Callback)) (c : Int) (w wk : World),
      k ≤ sched.length →
      (∀ j, j < k → ∃ wj, run_yields (sched.take j) w = some wj ∧ slot_empty wj p) →
      run_yields (sched.take k) w = some wk →
      ws_readchar_loop p timeout sched c w
        = ws_readchar_loop p timeout (sched.drop k) c wk := by
  intro k
  induction k with
  | zero =>
    intro sched c w wk _ _ hwk
    simp only [List.take_zero, run_yields, Option.some.injEq] at hwk
    subst hwk; rfl
  | succ k ih =>
    intro sched c w wk hlen hemp hwk
    match sched, hlen with
    | cbs :: rest, hlen =>
      obtain ⟨w0, h0, s, hs, he⟩ := hemp 0 (by omega)
      simp only [List.take_zero, run_yields, Option.some.injEq] at h0
      subst h0
      have hiter : ws_readchar_iter p timeout c w = some (Iter.sleep c) := by
        unfold ws_readchar_iter
        rw [hs]
        simp [he, hT, ne_of_lt hT]
      rw [List.take_succ_cons, run_yields] at hwk
      cases hsl : emscripten_sleep 100 cbs w with
      | none => rw [hsl] at hwk; cases hwk
      | some w1 =>
        rw [hsl] at hwk
        rw [ws_readchar_loop, hiter]
        simp only [hsl, List.drop_succ_cons]
        exact ih rest c w1 wk (by simpa using hlen) (stays_empty_shift hsl hemp) hwk

theorem readchar_loop_wait_pos (p timeout : Int) (hT : 0 < timeout) :
    ∀ (k : Nat) (sched : List (List Callback)) (c : Int) (w wk : World),
      k ≤ sched.length → (k : Int) ≤ c → c < 2 ^ 31 →
      (∀ j, j < k → ∃ wj, run_yields (sched.take j) w = some wj ∧ slot_empty wj p) →
      run_yields (sched.take k) w = some wk →
      ws_readchar_loop p timeout sched c w
        = ws_readchar_loop p timeout (sched.drop k) (c - k) wk := by
  intro k
  induction k with
  | zero =>
    intro sched c w wk _ _ _ _ hwk
    simp only [List.take_zero, run_yields, Option.some.injEq] at hwk
    subst hwk; simp
  | succ k ih =>
    intro sched c w wk hlen hkc hc hemp hwk
    match sched, hlen with
    | cbs :: rest, hlen =>
      obtain ⟨w0, h0, s, hs, he⟩ := hemp 0 (by omega)
      simp only [List.take_zero, run_yields, Option.some.injEq] at h0
      subst h0
      have hc1 : i32 (c - 1) = c - 1 := i32_of_range (by omega) (by omega)
      have hiter : ws_readchar_iter p timeout c w = some (Iter.sleep (c - 1)) := by
        unfold ws_readchar_iter
        rw [hs]
        have h1 : ¬ timeout = 0 := by omega
        have h2 : ¬ timeout < 0 := by omega
        have h3 : ¬ c - 1 < 0 := by omega
        simp only [he, if_true, h1, h2, if_false, hc1, h3]
      rw [List.take_succ_cons, run_yields] at hwk
      cases hsl : emscripten_sleep 100 cbs w with
      | none => rw [hsl] at hwk; cases hwk
      | some w1 =>
        rw [hsl] at hwk
        rw [ws_readchar_loop, hiter]
        simp only [hsl, List.drop_succ_cons]
        have := ih rest (c - 1) w1 wk (by simpa using hlen) (by omega) (by omega)
          (stays_empty_shift hsl hemp) hwk
        rw [this]
        congr 1
        push_cast
        omega

/-! ## Bounded wait, early return, indefinite wait -/

/-- Within the range of `int`: with 0 < T and 10 * T < 2^31, when the buffer holds no
unread byte at the call and after each of the first 10 * T sleeps, `ws_readchar`
returns -2 after exactly 10 * T sleeps of 100 ms. -/
theorem bounded_wait_in_range (w wk : World) (scb : serial) (timeout : Int)
    (sched : List (List Callback))
    (hT : 0 < timeout) (hrep : timeout * 10 < 2 ^ 31)
    (hlen : (timeout * 10).toNat ≤ sched.length)
    (hemp : ∀ j, j < (timeout * 10).toNat + 1 →
      ∃ wj, run_yields (sched.take j) w = some wj ∧ slot_empty wj (get_ws_state scb))
    (hwk : run_yields (sched.take (timeout * 10).toNat) w = some wk) :
    ws_readchar sched w scb timeout = some (-2, wk) ∧
      wk.trace = w.trace ++ List.replicate (timeout * 10).toNat (LibCall.sleep 100) := by
  have hc : i32 (timeout * 10) = timeout * 10 := i32_of_range (by omega) hrep
  have hk : ((timeout * 10).toNat : Int) = timeout * 10 := Int.toNat_of_nonneg (by omega)
  have hloop := readchar_loop_wait_pos (get_ws_state scb) timeout hT (timeout * 10).toNat
    sched (timeout * 10) w wk hlen (by omega) hrep
    (fun j hj => hemp j (by omega)) hwk
  obtain ⟨wk', h1, s, hs, he⟩ := hemp (timeout * 10).toNat (by omega)
  rw [hwk, Option.some.injEq] at h1
  subst h1
  have hiter : ws_readchar_iter (get_ws_state scb) timeout
      (timeout * 10 - ((timeout * 10).toNat : Int)) wk = some (Iter.ret (-2) wk) := by
    unfold ws_readchar_iter
    rw [hs, hk]
    have h1 : ¬ timeout = 0 := by omega
    have h2 : ¬ timeout < 0 := by omega
    have h3 : i32 (timeout * 10 - timeout * 10 - 1) < 0 := by
      rw [i32_of_range (by omega) (by omega)]; omega
    simp only [he, if_true, h1, h2, if_false, h3]
  constructor
  · unfold ws_readchar
    simp only [hc]
    rw [hloop]
    cases hd : sched.drop (timeout * 10).toNat with
    | nil => rw [ws_readchar_loop, hiter]
    | cons cbs rest => rw [ws_readchar_loop, hiter]
  · have := (run_yields_frame _ hwk).1
    rw [List.length_take, Nat.min_eq_left hlen] at this
    exact this

/-- C4, at the failing input: with timeout 214748365 the product `timeout * 10` leaves
the range of `int`, `countdown` is negative from the start, and `ws_readchar`
returns -2 at once, after no sleep at all (the world is unchanged), although
the buffer stays empty and 2147483650 sleeps would make up the timeout. -/
theorem bounded_wait_overflow :
    i32 (214748365 * 10) = -2147483646 ∧
      ∀ sched, ws_readchar sched demo_world demo_scb 214748365 = some (-2, demo_world) := by
  refine ⟨by decide, ?_⟩
  intro sched
  have hiter : ws_readchar_iter (get_ws_state demo_scb) 214748365 (i32 (214748365 * 10))
      demo_world = some (Iter.ret (-2) demo_world) := by rfl
  unfold ws_readchar
  cases sched with
  | nil => rw [ws_readchar_loop, hiter]
  | cons cbs rest => rw [ws_readchar_loop, hiter]

/-- C5. Early return on data: with 0 < T and 10 * T representable as a 32-bit `int`, and
k ≤ 10 * T, when the buffer holds no unread byte at the call and after each of the
first k - 1 sleeps and holds one after the k-th (k = 0: at the call), `ws_readchar`
returns the byte at `buffer[buffer_read]` after exactly k sleeps, with
`buffer_read` advanced by one; the result is not -2. (`buffer_write` is a
`uint32_t`, hence below 2^32.) -/
theorem early_return_on_data (w wk : World) (scb : serial) (timeout : Int)
    (sched : List (List Callback)) (k : Nat) (sk : ws_state) (b : uint8_t)
    (hT : 0 < timeout) (hrep : timeout * 10 < 2 ^ 31)
    (hk : (k : Int) ≤ timeout * 10) (hlen : k ≤ sched.length)
    (hemp : ∀ j, j < k →
      ∃ wj, run_yields (sched.take j) w = some wj ∧ slot_empty wj (get_ws_state scb))
    (hwk : run_yields (sched.take k) w = some wk)
    (hsk : load wk (get_ws_state scb) = some sk)
    (hdata : sk.buffer_read < sk.buffer_write) (hw32 : sk.buffer_write < 2 ^ 32)
    (hb : sk.buffer[sk.buffer_read]? = some (some b)) :
    ws_readchar sched w scb timeout
        = some (byte_result b,
            wk.set_slot (get_ws_state scb).toNat
              { sk with buffer_read := sk.buffer_read + 1 }) ∧
      wk.trace = w.trace ++ List.replicate k (LibCall.sleep 100) ∧
      byte_result b ≠ -2 := by
  have hc : i32 (timeout * 10) = timeout * 10 := i32_of_range (by omega) hrep
  have hloop := readchar_loop_wait_pos (get_ws_state scb) timeout hT k
    sched (timeout * 10) w wk hlen hk hrep hemp hwk
  have hpop := readchar_pop wk (get_ws_state scb) sk b timeout (sched.drop k)
    (timeout * 10 - k) hsk (by omega) hb
  rw [u32_of_lt (by omega)] at hpop
  refine ⟨?_, ?_, ?_⟩
  · unfold ws_readchar
    simp only [hc]
    rw [hloop, hpop]
  · have := (run_yields_frame _ hwk).1
    rw [List.length_take, Nat.min_eq_left hlen] at this
    exact this
  · unfold byte_result
    omega

set_option maxRecDepth 100000 in
/-- C5, at a concrete input: timeout 1 on the session just opened, the byte 9 arriving
in the third sleep. -/
theorem early_return_on_data_witness :
    ∃ wk : World,
      ws_readchar [[], [], [Callback.message 0 ⟨[9], false⟩]] demo_world demo_scb 1
        = some (byte_result 9,
            wk.set_slot (get_ws_state demo_scb).toNat
              { demo_slot_nine with buffer_read := demo_slot_nine.buffer_read + 1 }) ∧
      wk.trace = demo_world.trace ++ List.replicate 3 (LibCall.sleep 100) ∧
      byte_result 9 ≠ -2 :=
  ⟨_, early_return_on_data demo_world _ demo_scb 1
    [[], [], [Callback.message 0 ⟨[9], false⟩]] 3 demo_slot_nine 9
    (by decide) (by decide) (by decide) (by decide)
    (fun j hj => by
      have hj3 : j = 0 ∨ j = 1 ∨ j = 2 := by omega
      rcases hj3 with h | h | h <;> subst h <;> exact ⟨_, rfl, _, rfl, rfl⟩)
    rfl rfl (by decide) (by decide) rfl⟩

theorem readchar_iter_neg_inv {p timeout c : Int} {w : World} {it : Iter}
    (hT : timeout < 0) (h : ws_readchar_iter p timeout c w = some it) :
    ∃ s, load w p = some s ∧
      ((s.buffer_read = s.buffer_write ∧ it = Iter.sleep c) ∨
       (s.buffer_read ≠ s.buffer_write ∧ ∃ b : uint8_t,
          s.buffer[s.buffer_read]? = some (some b) ∧
          it = Iter.ret (byte_result b)
            (w.set_slot p.toNat { s with buffer_read := u32 (s.buffer_read + 1) }))) := by
  unfold ws_readchar_iter at h
  cases hs : load w p with
  | none => rw [hs] at h; cases h
  | some s =>
    rw [hs] at h
    refine ⟨s, rfl, ?_⟩
    by_cases he : s.buffer_read = s.buffer_write
    · left
      have h0 : ¬ timeout = 0 := by omega
      simp only [he, if_true, h0, if_false, hT, Option.some.injEq] at h
      exact ⟨he, h.symm⟩
    · right
      simp only [he, if_false] at h
      refine ⟨he, ?_⟩
      cases hc : s.buffer[s.buffer_read]? with
      | none => rw [hc] at h; cases h
      | some c0 =>
        cases c0 with
        | none => rw [hc] at h; cases h
        | some b =>
          rw [hc] at h
          simp only [store_of_load hs, Option.some.injEq] at h
          exact ⟨b, rfl, h.symm⟩

/-- The description of a return of `ws_readchar` after `k` sleeps: the buffer at `p` held
no unread byte at the call and after each of the first `k - 1` sleeps, holds one after
the `k`-th, and the result `r` is the byte at `buffer[buffer_read]`, popped in `w1`. -/
theorem readchar_loop_neg_sound (p timeout : Int) (hT : timeout < 0)
    (sched : List (List Callback)) :
    ∀ (c : Int) (w : World) (r : Int) (w1 : World),
      ws_readchar_loop p timeout sched c w = some (r, w1) →
      ∃ (k : Nat) (wk : World) (sk : ws_state) (b : uint8_t),
        k ≤ sched.length ∧
        (∀ j, j < k → ∃ wj, run_yields (sched.take j) w = some wj ∧ slot_empty wj p) ∧
        run_yields (sched.take k) w = some wk ∧
        load wk p = some sk ∧ sk.buffer_read ≠ sk.buffer_write ∧
        sk.buffer[sk.buffer_read]? = some (some b) ∧
        r = byte_result b ∧
        w1 = wk.set_slot p.toNat { sk with buffer_read := u32 (sk.buffer_read + 1) } := by
  induction sched with
  | nil =>
    intro c w r w1 h
    rw [ws_readchar_loop] at h
    cases hit : ws_readchar_iter p timeout c w with
    | none => rw [hit] at h; cases h
    | some it =>
      obtain ⟨s, hs, hcase⟩ := readchar_iter_neg_inv hT hit
      rcases hcase with ⟨_, hsl⟩ | ⟨hne, b, hb, hret⟩
      · rw [hit, hsl] at h; cases h
      · rw [hit, hret] at h
        simp only [Option.some.injEq, Prod.mk.injEq] at h
        exact ⟨0, w, s, b, Nat.le_refl _, fun j hj => absurd hj (Nat.not_lt_zero j), rfl, hs,
          hne, hb, h.1.symm, h.2.symm⟩
  | cons cbs rest ih =>
    intro c w r w1 h
    rw [ws_readchar_loop] at h
    cases hit : ws_readchar_iter p timeout c w with
    | none => rw [hit] at h; cases h
    | some it =>
      obtain ⟨s, hs, hcase⟩ := readchar_iter_neg_inv hT hit
      rcases hcase with ⟨he, hsl⟩ | ⟨hne, b, hb, hret⟩
      · rw [hit, hsl] at h
        cases hsleep : emscripten_sleep 100 cbs w with
        | none => simp only [hsleep] at h; cases h
        | some w0 =>
          simp only [hsleep] at h
          obtain ⟨k, wk, sk, b, h1, h2, h3, h4, h5, h6, h7, h8⟩ := ih c w0 r w1 h
          refine ⟨k + 1, wk, sk, b, by simpa using h1, ?_, ?_, h4, h5, h6, h7, h8⟩
          · intro j hj
            cases j with
            | zero => exact ⟨w, rfl, s, hs, he⟩
            | succ j =>
              obtain ⟨wj, g1, g2⟩ := h2 j (by omega)
              exact ⟨wj, by rw [List.take_succ_cons, run_yields, hsleep]; exact g1, g2⟩
          · rw [List.take_succ_cons, run_yields, hsleep]; exact h3
      · rw [hit, hret] at h
        simp only [Option.some.injEq, Prod.mk.injEq] at h
        exact ⟨0, w, s, b, Nat.zero_le _, fun j hj => absurd hj (Nat.not_lt_zero j), rfl, hs,
          hne, hb, h.1.symm, h.2.symm⟩

/-- C6. Indefinite wait: with a negative timeout, for every schedule, `ws_readchar`
returns exactly in this way: for some k the buffer held no unread byte at the call
and after each of the first k - 1 sleeps, holds one after the k-th, and the call
returns the byte at `buffer[buffer_read]` of that moment (never -2), having made
k sleeps of 100 ms, one per pass through the loop. Conversely, whenever such a k
lies within the schedule the call does return. -/
theorem indefinite_wait (w : World) (scb : serial) (timeout : Int)
    (sched : List (List Callback)) (hT : timeout < 0) :
    ∀ (r : Int) (w1 : World),
      ws_readchar sched w scb timeout = some (r, w1) ↔
      ∃ (k : Nat) (wk : World) (sk : ws_state) (b : uint8_t),
        k ≤ sched.length ∧
        (∀ j, j < k →
          ∃ wj, run_yields (sched.take j) w = some wj ∧ slot_empty wj (get_ws_state scb)) ∧
        run_yields (sched.take k) w = some wk ∧
        wk.trace = w.trace ++ List.replicate k (LibCall.sleep 100) ∧
        load wk (get_ws_state scb) = some sk ∧ sk.buffer_read ≠ sk.buffer_write ∧
        sk.buffer[sk.buffer_read]? = some (some b) ∧
        r = byte_result b ∧ r ≠ -2 ∧
        w1 = wk.set_slot (get_ws_state scb).toNat
          { sk with buffer_read := u32 (sk.buffer_read + 1) } := by
  intro r w1
  constructor
  · intro h
    obtain ⟨k, wk, sk, b, h1, h2, h3, h4, h5, h6, h7, h8⟩ :=
      readchar_loop_neg_sound (get_ws_state scb) timeout hT sched _ w r w1 h
    have htr := (run_yields_frame _ h3).1
    rw [List.length_take, Nat.min_eq_left h1] at htr
    refine ⟨k, wk, sk, b, h1, h2, h3, htr, h4, h5, h6, h7, ?_, h8⟩
    rw [h7]; unfold byte_result; omega
  · rintro ⟨k, wk, sk, b, h1, h2, h3, _, h4, h5, h6, h7, _, h8⟩
    unfold ws_readchar
    simp only []
    rw [readchar_loop_wait_neg (get_ws_state scb) timeout hT k sched _ w wk h1 h2 h3,
      readchar_pop wk (get_ws_state scb) sk b timeout _ _ h4 h5 h6, h7, h8]

set_option maxRecDepth 100000 in
/-- C6, at a concrete input: timeout -1 on the session just opened, the byte 9 arriving
in the second sleep; the call returns 9 after two sleeps. -/
theorem indefinite_wait_witness :
    (-1 : Int) < 0 ∧
      ∃ w1 : World,
        ws_readchar [[], [Callback.message 0 ⟨[9], false⟩], []] demo_world demo_scb (-1)
          = some (9, w1) ∧
        w1.trace = demo_world.trace ++ [LibCall.sleep 100, LibCall.sleep 100] :=
  ⟨by decide, _,
    (indefinite_wait demo_world demo_scb (-1) [[], [Callback.message 0 ⟨[9], false⟩], []]
      (by decide) 9 _).mpr
      ⟨2, _, demo_slot_nine, 9, by decide,
        fun j hj => by
          have hj2 : j = 0 ∨ j = 1 := by omega
          rcases hj2 with h | h <;> subst h <;> exact ⟨_, rfl, _, rfl, rfl⟩,
        rfl, rfl, rfl, by decide, rfl, rfl, by decide, rfl⟩,
    rfl⟩

/-! ## The session table: exhaustion, close, handles that were never opened -/

theorem ws_open_wait_frame (sched : List (List Callback)) :
    ∀ {w w1 : World}, ws_open_wait sched w = some w1 →
      w1.nsockets = w.nsockets ∧ w1.sockets.length = w.sockets.length := by
  induction sched with
  | nil =>
    intro w w1 h
    rw [ws_open_wait] at h
    split at h
    · cases h
    · split at h
      · cases h
      · cases h; exact ⟨rfl, rfl⟩
  | cons cbs rest ih =>
    intro w w1 h
    rw [ws_open_wait] at h
    split at h
    · cases h
    · split at h
      · split at h
        · cases h
        · rename_i w0 hsl
          obtain ⟨_, a2, a3⟩ := emscripten_sleep_frame hsl
          obtain ⟨b2, b3⟩ := ih h
          exact ⟨b2.trans a2, b3.trans a3⟩
      · cases h; exact ⟨rfl, rfl⟩

theorem ws_open_full (is_supported : Bool) (new_ws : Int) (sched : List (List Callback))
    (w : World) (scb : serial) (name : String) (h : MAX_SOCKETS ≤ w.nsockets) :
    ws_open is_supported new_ws sched w scb name = some (-1, scb, w) := by
  unfold ws_open
  by_cases hs : (!is_supported) = true
  · rw [if_pos hs]
  · rw [if_neg hs, if_pos h]

theorem ws_open_success {is_supported : Bool} {new_ws : Int} {sched : List (List Callback)}
    {w w1 : World} {scb scb1 : serial} {name : String}
    (h : ws_open is_supported new_ws sched w scb name = some (0, scb1, w1)) :
    w.nsockets < MAX_SOCKETS ∧ w.nsockets < w.sockets.length ∧
      w1.nsockets = w.nsockets + 1 ∧ w1.sockets.length = w.sockets.length ∧
      scb1.fd = 20 + (w.nsockets : Int) := by
  unfold ws_open at h
  split at h
  · simp at h
  · split at h
    · simp at h
    · rename_i hfull
      split at h
      · cases h
      · rename_i s hslot
        simp only [] at h
        split at h
        · cases h
        · rename_i w3 hwait
          obtain ⟨a1, a2⟩ := ws_open_wait_frame sched hwait
          simp only [Option.some.injEq, Prod.mk.injEq, true_and] at h
          obtain ⟨h1, h2⟩ := h
          subst h1 h2
          refine ⟨by omega, (slot_some_bounds hslot).2.1, ?_, ?_, rfl⟩
          · show w3.nsockets + 1 = w.nsockets + 1
            rw [a1]; rfl
          · show w3.sockets.length = w.sockets.length
            rw [a2]; simp [World.set_slot]

theorem ws_open_seq_success (calls : List OpenCall) :
    ∀ {w0 w : World} {rets : List (Int × serial)},
      ws_open_seq calls w0 = some (rets, w) → (∀ r ∈ rets, r.1 = 0) →
      w.nsockets = w0.nsockets + calls.length ∧
      w.sockets.length = w0.sockets.length ∧
      ∀ r ∈ rets, ∃ i : Nat, r.2.fd = 20 + (i : Int) ∧ i < MAX_SOCKETS ∧
        i < w0.sockets.length := by
  induction calls with
  | nil =>
    intro w0 w rets h _
    simp only [ws_open_seq, Option.some.injEq, Prod.mk.injEq] at h
    obtain ⟨h1, h2⟩ := h
    subst h1 h2
    exact ⟨rfl, rfl, fun r hr => absurd hr (List.not_mem_nil r)⟩
  | cons c rest ih =>
    intro w0 w rets h hok
    rw [ws_open_seq] at h
    cases ho : ws_open c.is_supported c.new_ws c.sched w0 c.scb c.name with
    | none => rw [ho] at h; cases h
    | some res =>
      obtain ⟨r0, scb1, w1⟩ := res
      rw [ho] at h
      simp only [] at h
      cases hr : ws_open_seq rest w1 with
      | none => rw [hr] at h; cases h
      | some res2 =>
        obtain ⟨rs, w2⟩ := res2
        rw [hr] at h
        simp only [Option.some.injEq, Prod.mk.injEq] at h
        obtain ⟨h1, h2⟩ := h
        subst h1 h2
        have hr0 : r0 = 0 := hok (r0, scb1) (List.mem_cons_self _ _)
        subst hr0
        obtain ⟨a1, a2, a3, a4, a5⟩ := ws_open_success ho
        obtain ⟨b1, b2, b3⟩ := ih hr (fun r hmem => hok r (List.mem_cons_of_mem _ hmem))
        refine ⟨?_, b2.trans a4, ?_⟩
        · rw [b1, a3, List.length_cons]; omega
        · intro r hmem
          rcases List.mem_cons.mp hmem with h0 | h0
          · subst h0
            exact ⟨w0.nsockets, a5, a1, a2⟩
          · obtain ⟨i, g1, g2, g3⟩ := b3 r h0
            exact ⟨i, g1, g2, by omega⟩

/-- C8. Table exhaustion: after `MAX_SOCKETS` = 10 calls of `ws_open` that all returned
0, every further `ws_open` with the websocket capability supported returns -1 and
leaves the world as it was: no library call is recorded (no socket is created),
`nsockets`, every slot and `*scb` are unchanged. -/
theorem table_exhaustion (w0 w10 : World) (calls : List OpenCall)
    (rets : List (Int × serial))
    (hlen : calls.length = MAX_SOCKETS)
    (hrun : ws_open_seq calls w0 = some (rets, w10))
    (hok : ∀ r ∈ rets, r.1 = 0) :
    ∀ (new_ws : Int) (sched : List (List Callback)) (scb : serial) (name : String),
      ws_open true new_ws sched w10 scb name = some (-1, scb, w10) := by
  intro new_ws sched scb name
  obtain ⟨h1, _, _⟩ := ws_open_seq_success calls hrun hok
  exact ws_open_full true new_ws sched w10 scb name (by omega)

set_option maxRecDepth 100000 in
/-- C8, at a concrete input: ten sessions opened from program start, then an eleventh
`ws_open` whose `onopen` callback would arrive in the first sleep. -/
theorem table_exhaustion_witness :
    ws_open true 99 [[Callback.opened 10]] demo_world10 ⟨110, -1⟩ "ws://host"
      = some (-1, ⟨110, -1⟩, demo_world10) :=
  table_exhaustion world_init demo_world10 demo_calls demo_handles rfl rfl (by decide)
    99 [[Callback.opened 10]] ⟨110, -1⟩ "ws://host"

theorem ws_close_open_handle {w : World} {scb : serial} {s : ws_state}
    (hs : load w (get_ws_state scb) = some s) (hfd : scb.fd ≠ -1) :
    ws_close w scb = some ({ scb with fd := -1 },
      { w with trace := w.trace ++ [LibCall.websocket_delete s.ws] }) := by
  unfold ws_close
  rw [if_neg hfd, hs]

theorem load_of_handle {w : World} {scb : serial} {i : Nat}
    (hfd : scb.fd = 20 + (i : Int)) (hi : i < MAX_SOCKETS) (hlen : i < w.sockets.length) :
    ∃ s, load w (get_ws_state scb) = some s ∧ w.sockets[i]? = some s := by
  have hp : get_ws_state scb = (i : Int) := by unfold get_ws_state; omega
  refine ⟨w.sockets[i], ?_, List.getElem?_eq_getElem hlen⟩
  rw [hp, load_natCast]
  unfold World.slot
  rw [if_pos hi, List.getElem?_eq_getElem hlen]

/-- C9, as the code has it. After `MAX_SOCKETS` = 10 calls of `ws_open` that all returned
0, `ws_close` on any of the ten handles deletes the session's socket and sets the
handle's `fd` to -1, but leaves `nsockets` and every slot as they were (only the
record of library calls grows); so every further `ws_open` with the capability
supported still returns -1 and changes nothing. -/
theorem close_keeps_slot (w0 w10 : World) (calls : List OpenCall)
    (rets : List (Int × serial))
    (hlen : calls.length = MAX_SOCKETS)
    (hrun : ws_open_seq calls w0 = some (rets, w10))
    (hok : ∀ r ∈ rets, r.1 = 0) :
    ∀ r ∈ rets, ∃ (s : ws_state) (w11 : World),
      load w10 (get_ws_state r.2) = some s ∧
      ws_close w10 r.2 = some ({ r.2 with fd := -1 }, w11) ∧
      w11 = { w10 with trace := w10.trace ++ [LibCall.websocket_delete s.ws] } ∧
      ∀ (new_ws : Int) (sched : List (List Callback)) (scb : serial) (name : String),
        ws_open true new_ws sched w11 scb name = some (-1, scb, w11) := by
  intro r hr
  obtain ⟨h1, h2, h3⟩ := ws_open_seq_success calls hrun hok
  obtain ⟨i, g1, g2, g3⟩ := h3 r hr
  obtain ⟨s, hs, _⟩ := load_of_handle (w := w10) g1 g2 (by omega)
  refine ⟨s, _, hs, ws_close_open_handle hs (by omega), rfl, ?_⟩
  intro new_ws sched scb name
  exact ws_open_full true new_ws sched _ scb name (by show MAX_SOCKETS ≤ w10.nsockets; omega)

set_option maxRecDepth 100000 in
/-- C9 as amended, at a concrete input: ten sessions opened from program start, then the
handle 23 closed. -/
theorem close_keeps_slot_witness :
    ∃ (s : ws_state) (w11 : World),
      load demo_world10 (get_ws_state ⟨103, 23⟩) = some s ∧
      ws_close demo_world10 ⟨103, 23⟩ = some (⟨103, -1⟩, w11) ∧
      w11 = { demo_world10 with
                trace := demo_world10.trace ++ [LibCall.websocket_delete s.ws] } ∧
      ∀ (new_ws : Int) (sched : List (List Callback)) (scb : serial) (name : String),
        ws_open true new_ws sched w11 scb name = some (-1, scb, w11) :=
  close_keeps_slot world_init demo_world10 demo_calls demo_handles rfl rfl (by decide)
    (0, ⟨103, 23⟩) (by decide)

set_option maxRecDepth 100000 in
/-- C9 fails as stated: ten sessions are opened from program start (all ten calls return
0), the session with handle 23 is closed, and the next `ws_open`, with the
capability supported and the `onopen` callback ready for any slot, returns -1. -/
theorem slot_reuse_counterexample :
    ws_open_seq demo_calls world_init = some (demo_handles, demo_world10) ∧
      (∀ r ∈ demo_handles, r.1 = 0) ∧
      ws_close demo_world10 ⟨103, 23⟩ = some (⟨103, -1⟩, demo_world_closed) ∧
      ws_open true 99 [[Callback.opened 3, Callback.opened 10]] demo_world_closed
        ⟨110, -1⟩ "ws://host" = some (-1, ⟨110, -1⟩, demo_world_closed) :=
  ⟨rfl, by decide, rfl, rfl⟩

/-- A handle 20 + i with i < 10 whose slot was never opened (it is still
zero-initialised) is served like a session: `ws_flush_input` returns 0, `ws_write`
calls `send_binary` on socket 0 and returns 0, and `ws_readchar` with timeout 0
returns -2; none reports an invalid handle. -/
theorem unopened_handle_served (w : World) (scb : serial) (i : Nat)
    (hi : i < MAX_SOCKETS) (hfd : scb.fd = 20 + (i : Int))
    (hz : w.sockets[i]? = some ws_state_zero) :
    ws_flush_input w scb = some (0, w) ∧
      (∀ (send_result : Int) (buf : List uint8_t) (count : Nat),
        ws_write send_result w scb buf count
          = some (0, { w with trace := w.trace ++
              [LibCall.websocket_send_binary 0 buf count] })) ∧
      ∀ sched, ws_readchar sched w scb 0 = some (-2, w) := by
  obtain ⟨s, hs, hs'⟩ := load_of_handle (w := w) hfd hi (List.getElem?_eq_some.mp hz).1
  have hsz : s = ws_state_zero := by
    rw [hz] at hs'; exact (Option.some.inj hs').symm
  subst hsz
  refine ⟨?_, ?_, ?_⟩
  · unfold ws_flush_input
    rw [hs]
    simp only [store_of_load hs]
    have : ({ ws_state_zero with buffer_read := 0, buffer_write := 0 } : ws_state)
        = ws_state_zero := rfl
    rw [this, set_slot_self hs]
  · intro send_result buf count
    unfold ws_write
    rw [hs]
    rfl
  · intro sched
    exact readchar_empty_poll w _ _ sched _ hs rfl

/-- The handle 25 at program start is served like a session. -/
theorem unopened_handle_served_witness :
    ws_flush_input world_init ⟨0, 25⟩ = some (0, world_init) ∧
      (∀ (send_result : Int) (buf : List uint8_t) (count : Nat),
        ws_write send_result world_init ⟨0, 25⟩ buf count
          = some (0, { world_init with trace := world_init.trace ++
              [LibCall.websocket_send_binary 0 buf count] })) ∧
      ∀ sched, ws_readchar sched world_init ⟨0, 25⟩ 0 = some (-2, world_init) :=
  unopened_handle_served world_init ⟨0, 25⟩ 5 (by decide) (by decide) (by decide)

/-- At program start no session was ever opened, yet on handle 25 `ws_flush_input`
returns 0, `ws_write` returns 0 after calling the library on socket 0, and a poll
returns -2, the code of a timeout. -/
theorem invalid_handle_counterexample :
    world_init.nsockets = 0 ∧
      ws_flush_input world_init ⟨0, 25⟩ = some (0, world_init) ∧
      ws_write 0 world_init ⟨0, 25⟩ [1, 2, 3] 3
        = some (0, { world_init with
            trace := [LibCall.websocket_send_binary 0 [1, 2, 3] 3] }) ∧
      ws_readchar [] world_init ⟨0, 25⟩ 0 = some (-2, world_init) :=
  ⟨rfl, by decide, by decide, by decide⟩

/-! ## Close twice, write, open without websocket support -/

/-- C11. Close is idempotent: on an open handle `ws_close` deletes the session's socket
once and sets `fd` to -1; a second `ws_close` on the now closed handle returns
at once, records no library call and changes neither the world nor the handle,
so two closes leave the same state as one. -/
theorem close_idempotent (w : World) (scb : serial) (s : ws_state)
    (hs : load w (get_ws_state scb) = some s) :
    ∃ (scb1 : serial) (w1 : World),
      ws_close w scb = some (scb1, w1) ∧
      scb1.fd = -1 ∧
      w1.trace = w.trace ++ [LibCall.websocket_delete s.ws] ∧
      w1.sockets = w.sockets ∧ w1.nsockets = w.nsockets ∧
      ws_close w1 scb1 = some (scb1, w1) := by
  have hp := (load_some_bounds hs).1
  have hfd : scb.fd ≠ -1 := by
    unfold get_ws_state at hp
    omega
  refine ⟨_, _, ws_close_open_handle hs hfd, rfl, rfl, rfl, rfl, ?_⟩
  unfold ws_close
  rw [if_pos rfl]

/-- C11, at a concrete input: the session just opened is closed twice. -/
theorem close_idempotent_witness :
    ∃ (scb1 : serial) (w1 : World),
      ws_close demo_world demo_scb = some (scb1, w1) ∧
      scb1.fd = -1 ∧
      w1.trace = demo_world.trace ++ [LibCall.websocket_delete demo_slot.ws] ∧
      w1.sockets = demo_world.sockets ∧ w1.nsockets = demo_world.nsockets ∧
      ws_close w1 scb1 = some (scb1, w1) :=
  close_idempotent demo_world demo_scb demo_slot rfl

/-- C12. Write passes bytes through: on an open handle `ws_write` records exactly one
library call, `send_binary` on the session's socket with the buffer and the count
it was given, unmodified; it returns 0 whatever `send_binary` reports, and the
table (every buffer and cursor) is unchanged. -/
theorem write_passes_through (w : World) (scb : serial) (s : ws_state)
    (buf : List uint8_t) (send_result : Int)
    (hs : load w (get_ws_state scb) = some s) :
    ∃ w1 : World,
      ws_write send_result w scb buf buf.length = some (0, w1) ∧
      w1.trace = w.trace ++ [LibCall.websocket_send_binary s.ws buf buf.length] ∧
      w1.sockets = w.sockets ∧ w1.nsockets = w.nsockets ∧
      load w1 (get_ws_state scb) = some s := by
  refine ⟨{ w with trace := w.trace ++ [LibCall.websocket_send_binary s.ws buf buf.length] },
    ?_, rfl, rfl, rfl, ?_⟩
  · unfold ws_write
    rw [hs]
  · exact hs

/-- C12, at a concrete input: the bytes 1, 2, 3 written to the session just opened, the
library reporting the failure status -5. -/
theorem write_passes_through_witness :
    ∃ w1 : World,
      ws_write (-5) demo_world demo_scb [1, 2, 3] [(1 : uint8_t), 2, 3].length = some (0, w1) ∧
      w1.trace = demo_world.trace ++
        [LibCall.websocket_send_binary demo_slot.ws [1, 2, 3] [(1 : uint8_t), 2, 3].length] ∧
      w1.sockets = demo_world.sockets ∧ w1.nsockets = demo_world.nsockets ∧
      load w1 (get_ws_state demo_scb) = some demo_slot :=
  write_passes_through demo_world demo_scb demo_slot [1, 2, 3] (-5) rfl

/-- C13. Unsupported capability: when `emscripten_websocket_is_supported ()` is false,
`ws_open` returns -1 for every name and every world, and world and `*scb` are
unchanged: no slot is written, `nsockets` and `scb->fd` keep their values, and no
library call (no `websocket_new`) is recorded. -/
theorem unsupported_capability (new_ws : Int) (sched : List (List Callback)) (w : World)
    (scb : serial) (name : String) :
    ws_open false new_ws sched w scb name = some (-1, scb, w) := by
  unfold ws_open
  rfl

/-! ## What callbacks and sleeps do to the slots -/

theorem store_inv {w w1 : World} {p : Int} {s1 : ws_state} (h : store w p s1 = some w1) :
    ∃ s, load w p = some s ∧ w1 = w.set_slot p.toNat s1 := by
  unfold store at h
  cases hl : load w p with
  | none => rw [hl] at h; cases h
  | some s =>
    rw [hl] at h
    exact ⟨s, rfl, (Option.some.inj h).symm⟩

/-- Writing `s1` over the slot `s` at `p`: every slot keeps its content, except the one
at `p`, which goes from `s` to `s1`. -/
theorem set_slot_cases {w : World} {p : Int} {s : ws_state} (hs : load w p = some s)
    (s1 : ws_state) (k : Nat) :
    ((k : Int) = p ∧ w.slot k = some s ∧ (w.set_slot p.toNat s1).slot k = some s1) ∨
    ((k : Int) ≠ p ∧ (w.set_slot p.toNat s1).slot k = w.slot k) := by
  obtain ⟨h0, h1⟩ := load_some_bounds hs
  by_cases hk : (k : Int) = p
  · left
    have : p.toNat = k := by omega
    rw [this] at h1 ⊢
    exact ⟨hk, h1, slot_set_slot_same h1 s1⟩
  · right
    exact ⟨hk, slot_set_slot_other w _ _ s1 (by omega)⟩

theorem callback_run_cases {cb : Callback} {w w1 : World} (h : cb.run w = some w1) :
    w1 = w ∨ ∃ s s1, load w cb.userData = some s ∧ slot_step s s1 ∧
      w1 = w.set_slot cb.userData.toNat s1 := by
  cases cb with
  | opened p =>
    right
    simp only [Callback.run, onopen] at h
    cases hl : load w p with
    | none => rw [hl] at h; cases h
    | some s =>
      rw [hl] at h
      simp only [store_of_load hl, Option.some.injEq] at h
      exact ⟨s, _, hl, slot_step.opened s, h.symm⟩
  | error p =>
    left
    simp only [Callback.run, onerror, Option.some.injEq] at h
    exact h.symm
  | closed p =>
    left
    simp only [Callback.run, onclose, Option.some.injEq] at h
    exact h.symm
  | message p e =>
    right
    simp only [Callback.run, onmessage] at h
    cases hl : load w p with
    | none => rw [hl] at h; cases h
    | some s =>
      simp only [hl] at h
      cases hm : onmessage_slot e s with
      | none => simp only [hm] at h; cases h
      | some s1 =>
        simp only [hm, store_of_load hl, Option.some.injEq] at h
        exact ⟨s, s1, hl, slot_step.message e s s1 hm, h.symm⟩

theorem evolves_refl (w : World) : evolves w w :=
  fun _ s hs => ⟨s, hs, Relation.ReflTransGen.refl⟩

theorem evolves_trans {w w1 w2 : World} (h1 : evolves w w1) (h2 : evolves w1 w2) :
    evolves w w2 := by
  intro k s hs
  obtain ⟨s1, g1, g2⟩ := h1 k s hs
  obtain ⟨s2, g3, g4⟩ := h2 k s1 g1
  exact ⟨s2, g3, Relation.ReflTransGen.trans g2 g4⟩

theorem evolves_set_slot {w : World} {p : Int} {s s1 : ws_state} (hs : load w p = some s)
    (hstep : slot_step s s1) : evolves w (w.set_slot p.toNat s1) := by
  intro k s0 hk
  rcases set_slot_cases hs s1 k with ⟨_, h2, h3⟩ | ⟨_, h2⟩
  · rw [h2] at hk
    cases hk
    exact ⟨s1, h3, Relation.ReflTransGen.single hstep⟩
  · exact ⟨s0, by rw [h2]; exact hk, Relation.ReflTransGen.refl⟩

theorem evolves_trace (w : World) (tr : List LibCall) : evolves w { w with trace := tr } :=
  fun _ s hs => ⟨s, hs, Relation.ReflTransGen.refl⟩

theorem callback_run_evolves {cb : Callback} {w w1 : World} (h : cb.run w = some w1) :
    evolves w w1 := by
  rcases callback_run_cases h with h1 | ⟨s, s1, hs, hstep, h1⟩
  · subst h1; exact evolves_refl _
  · subst h1; exact evolves_set_slot hs hstep

theorem callback_run_other {cb : Callback} {w w1 : World} (h : cb.run w = some w1)
    (k : Nat) (hk : (k : Int) ≠ cb.userData) : w1.slot k = w.slot k := by
  rcases callback_run_cases h with h1 | ⟨s, s1, hs, _, h1⟩
  · subst h1; rfl
  · subst h1
    rcases set_slot_cases hs s1 k with ⟨h2, _, _⟩ | ⟨_, h2⟩
    · exact absurd h2 hk
    · exact h2

theorem dispatch_evolves (cbs : List Callback) :
    ∀ {w w1 : World}, dispatch cbs w = some w1 → evolves w w1 := by
  induction cbs with
  | nil =>
    intro w w1 h
    simp only [dispatch, Option.some.injEq] at h
    subst h; exact evolves_refl w
  | cons cb rest ih =>
    intro w w1 h
    simp only [dispatch] at h
    cases hcb : cb.run w with
    | none => rw [hcb] at h; cases h
    | some w0 =>
      rw [hcb, Option.some_bind] at h
      exact evolves_trans (callback_run_evolves hcb) (ih h)

theorem dispatch_other (cbs : List Callback) (k : Nat) :
    ∀ {w w1 : World}, dispatch cbs w = some w1 →
      (∀ cb ∈ cbs, (k : Int) ≠ cb.userData) → w1.slot k = w.slot k := by
  induction cbs with
  | nil =>
    intro w w1 h _
    simp only [dispatch, Option.some.injEq] at h
    subst h; rfl
  | cons cb rest ih =>
    intro w w1 h hk
    simp only [dispatch] at h
    cases hcb : cb.run w with
    | none => rw [hcb] at h; cases h
    | some w0 =>
      rw [hcb, Option.some_bind] at h
      rw [ih h (fun c hc => hk c (List.mem_cons_of_mem _ hc)),
        callback_run_other hcb k (hk cb (List.mem_cons_self _ _))]

theorem run_yields_evolves (sched : List (List Callback)) :
    ∀ {w w1 : World}, run_yields sched w = some w1 → evolves w w1 := by
  induction sched with
  | nil =>
    intro w w1 h
    simp only [run_yields, Option.some.injEq] at h
    subst h; exact evolves_refl w
  | cons cbs rest ih =>
    intro w w1 h
    rw [run_yields] at h
    cases hs : emscripten_sleep 100 cbs w with
    | none => rw [hs] at h; cases h
    | some w0 =>
      rw [hs] at h
      unfold emscripten_sleep at hs
      exact evolves_trans (evolves_trans (evolves_trace w _) (dispatch_evolves cbs hs)) (ih h)

theorem run_yields_other (sched : List (List Callback)) (k : Nat) :
    ∀ {w w1 : World}, run_yields sched w = some w1 →
      (∀ cbs ∈ sched, ∀ cb ∈ cbs, (k : Int) ≠ cb.userData) → w1.slot k = w.slot k := by
  induction sched with
  | nil =>
    intro w w1 h _
    simp only [run_yields, Option.some.injEq] at h
    subst h; rfl
  | cons cbs rest ih =>
    intro w w1 h hk
    rw [run_yields] at h
    cases hs : emscripten_sleep 100 cbs w with
    | none => rw [hs] at h; cases h
    | some w0 =>
      rw [hs] at h
      unfold emscripten_sleep at hs
      rw [ih h (fun c hc => hk c (List.mem_cons_of_mem _ hc)),
        dispatch_other cbs k hs (hk cbs (List.mem_cons_self _ _))]
      rfl

/-! ## The shape of a call of `ws_readchar` and of `ws_open` -/

theorem readchar_iter_inv {p timeout c : Int} {w : World} {it : Iter}
    (h : ws_readchar_iter p timeout c w = some it) :
    (∃ c1, it = Iter.sleep c1) ∨ it = Iter.ret (-2) w ∨
      ∃ (s : ws_state) (b : uint8_t), load w p = some s ∧
        s.buffer_read ≠ s.buffer_write ∧ s.buffer[s.buffer_read]? = some (some b) ∧
        it = Iter.ret (byte_result b)
          (w.set_slot p.toNat { s with buffer_read := u32 (s.buffer_read + 1) }) := by
  unfold ws_readchar_iter at h
  cases hs : load w p with
  | none => rw [hs] at h; cases h
  | some s =>
    simp only [hs] at h
    by_cases he : s.buffer_read = s.buffer_write
    · simp only [he, if_true] at h
      split at h
      · right; left; exact (Option.some.inj h).symm
      · split at h
        · left; exact ⟨_, (Option.some.inj h).symm⟩
        · split at h
          · right; left; exact (Option.some.inj h).symm
          · left; exact ⟨_, (Option.some.inj h).symm⟩
    · right; right
      simp only [he, if_false] at h
      cases hc : s.buffer[s.buffer_read]? with
      | none => rw [hc] at h; cases h
      | some c0 =>
        cases c0 with
        | none => rw [hc] at h; cases h
        | some b =>
          rw [hc] at h
          simp only [store_of_load hs, Option.some.injEq] at h
          exact ⟨s, b, rfl, he, hc, h.symm⟩

/-- Every return of the loop of `ws_readchar` has this shape: some number `k` of sleeps
of the schedule were made, and then either -2 is returned in the world reached,
or the byte at `buffer[buffer_read]` of the slot is returned and popped. -/
theorem readchar_loop_shape (p timeout : Int) (sched : List (List Callback)) :
    ∀ (c : Int) (w : World) (r : Int) (w1 : World),
      ws_readchar_loop p timeout sched c w = some (r, w1) →
      ∃ (k : Nat) (wk : World), k ≤ sched.length ∧
        run_yields (sched.take k) w = some wk ∧
        ((r = -2 ∧ w1 = wk) ∨
          ∃ (s : ws_state) (b : uint8_t), load wk p = some s ∧
            s.buffer_read ≠ s.buffer_write ∧ s.buffer[s.buffer_read]? = some (some b) ∧
            r = byte_result b ∧
            w1 = wk.set_slot p.toNat { s with buffer_read := u32 (s.buffer_read + 1) }) := by
  induction sched with
  | nil =>
    intro c w r w1 h
    rw [ws_readchar_loop] at h
    cases hit : ws_readchar_iter p timeout c w with
    | none => rw [hit] at h; cases h
    | some it =>
      rcases readchar_iter_inv hit with ⟨c1, hsl⟩ | hto | ⟨s, b, hs, hne, hb, hret⟩
      · rw [hit, hsl] at h; cases h
      · rw [hit, hto] at h
        simp only [Option.some.injEq, Prod.mk.injEq] at h
        exact ⟨0, w, Nat.le_refl _, rfl, Or.inl ⟨h.1.symm, h.2.symm⟩⟩
      · rw [hit, hret] at h
        simp only [Option.some.injEq, Prod.mk.injEq] at h
        exact ⟨0, w, Nat.le_refl _, rfl, Or.inr ⟨s, b, hs, hne, hb, h.1.symm, h.2.symm⟩⟩
  | cons cbs rest ih =>
    intro c w r w1 h
    rw [ws_readchar_loop] at h
    cases hit : ws_readchar_iter p timeout c w with
    | none => rw [hit] at h; cases h
    | some it =>
      rcases readchar_iter_inv hit with ⟨c1, hsl⟩ | hto | ⟨s, b, hs, hne, hb, hret⟩
      · rw [hit, hsl] at h
        cases hsleep : emscripten_sleep 100 cbs w with
        | none => simp only [hsleep] at h; cases h
        | some w0 =>
          simp only [hsleep] at h
          obtain ⟨k, wk, h1, h2, h3⟩ := ih c1 w0 r w1 h
          refine ⟨k + 1, wk, by simpa using h1, ?_, h3⟩
          rw [List.take_succ_cons, run_yields, hsleep]; exact h2
      · rw [hit, hto] at h
        simp only [Option.some.injEq, Prod.mk.injEq] at h
        exact ⟨0, w, Nat.zero_le _, rfl, Or.inl ⟨h.1.symm, h.2.symm⟩⟩
      · rw [hit, hret] at h
        simp only [Option.some.injEq, Prod.mk.injEq] at h
        exact ⟨0, w, Nat.zero_le _, rfl, Or.inr ⟨s, b, hs, hne, hb, h.1.symm, h.2.symm⟩⟩

theorem ws_open_wait_shape (sched : List (List Callback)) :
    ∀ {w w1 : World}, ws_open_wait sched w = some w1 →
      ∃ k, k ≤ sched.length ∧ run_yields (sched.take k) w = some w1 ∧
        ∃ s, w1.slot w1.nsockets = some s ∧ s.opened ≠ 0 := by
  induction sched with
  | nil =>
    intro w w1 h
    rw [ws_open_wait] at h
    split at h
    · cases h
    · rename_i s hs
      split at h
      · cases h
      · rename_i hop
        cases h
        exact ⟨0, Nat.le_refl _, rfl, s, hs, hop⟩
  | cons cbs rest ih =>
    intro w w1 h
    rw [ws_open_wait] at h
    split at h
    · cases h
    · rename_i s hs
      split at h
      · split at h
        · cases h
        · rename_i w0 hsl
          obtain ⟨k, h1, h2, h3⟩ := ih h
          refine ⟨k + 1, by simpa using h1, ?_, h3⟩
          rw [List.take_succ_cons, run_yields, hsl]; exact h2
      · rename_i hop
        cases h
        exact ⟨0, Nat.zero_le _, rfl, s, hs, hop⟩

/-- The world `ws_open` has built when it starts to wait: the new slot is set up and the
socket creation and the four callback registrations are recorded. -/
theorem ws_open_cases {is_supported : Bool} {new_ws : Int} {sched : List (List Callback)}
    {w w1 : World} {scb scb1 : serial} {name : String} {r : Int}
    (h : ws_open is_supported new_ws sched w scb name = some (r, scb1, w1)) :
    (r = -1 ∧ scb1 = scb ∧ w1 = w) ∨
    (r = 0 ∧ w.nsockets < MAX_SOCKETS ∧ scb1 = { scb with fd := 20 + (w.nsockets : Int) } ∧
      ∃ (s0 : ws_state) (tr : List LibCall) (k : Nat) (wk : World),
        w.slot w.nsockets = some s0 ∧
        run_yields (sched.take k)
          { w.set_slot w.nsockets (fresh_slot scb new_ws) with trace := tr } = some wk ∧
        (∃ s, wk.slot wk.nsockets = some s ∧ s.opened ≠ 0) ∧
        w1 = { wk with nsockets := wk.nsockets + 1 }) := by
  unfold ws_open at h
  split at h
  · left
    simp only [Option.some.injEq, Prod.mk.injEq] at h
    exact ⟨h.1.symm, h.2.1.symm, h.2.2.symm⟩
  · split at h
    · left
      simp only [Option.some.injEq, Prod.mk.injEq] at h
      exact ⟨h.1.symm, h.2.1.symm, h.2.2.symm⟩
    · rename_i hfull
      right
      split at h
      · cases h
      · rename_i s0 hslot
        simp only [] at h
        split at h
        · cases h
        · rename_i w3 hwait
          simp only [Option.some.injEq, Prod.mk.injEq] at h
          obtain ⟨k, _, hk, hop⟩ := ws_open_wait_shape sched hwait
          exact ⟨h.1.symm, by omega, h.2.1.symm, s0, _, k, w3, hslot, hk, hop, h.2.2.symm⟩

/-! ## The values `ws_readchar` returns; independence of the sessions -/

theorem byte_result_range (b : uint8_t) : 0 ≤ byte_result b ∧ byte_result b ≤ 255 := by
  unfold byte_result
  have := b.isLt
  omega

/-- C20. Read result range: for every world, handle, timeout and schedule, a value
returned by `ws_readchar` is -2 or lies in 0..255, so it is neither -1 (EOF) nor
-3; and when the slot holds an unread byte `b`, the call returns the unsigned
value of `b`, which is not negative: 0xFE is returned as 254 and 0xFF as 255. -/
theorem read_result_range (sched : List (List Callback)) (w : World) (scb : serial)
    (timeout : Int) :
    (∀ (r : Int) (w1 : World), ws_readchar sched w scb timeout = some (r, w1) →
      (r = -2 ∨ (0 ≤ r ∧ r ≤ 255)) ∧ r ≠ -1 ∧ r ≠ -3) ∧
    (∀ (s : ws_state) (b : uint8_t), load w (get_ws_state scb) = some s →
      s.buffer_read ≠ s.buffer_write → s.buffer[s.buffer_read]? = some (some b) →
      ∃ w1, ws_readchar sched w scb timeout = some (((b.val : Nat) : Int), w1) ∧
        ((b.val : Nat) : Int) ≠ -2 ∧ ((b.val : Nat) : Int) ≠ -1) ∧
    byte_result 0xFE = 254 ∧ byte_result 0xFF = 255 := by
  refine ⟨?_, ?_, by decide, by decide⟩
  · intro r w1 h
    obtain ⟨k, wk, _, _, hcase⟩ := readchar_loop_shape _ _ sched _ w r w1 h
    rcases hcase with ⟨hr, _⟩ | ⟨s, b, _, _, _, hr, _⟩
    · subst hr
      exact ⟨Or.inl rfl, by decide, by decide⟩
    · obtain ⟨h0, h1⟩ := byte_result_range b
      rw [hr]
      exact ⟨Or.inr ⟨h0, h1⟩, by omega, by omega⟩
  · intro s b hs hne hb
    refine ⟨_, readchar_pop w _ s b timeout sched _ hs hne hb, ?_, ?_⟩ <;> omega

set_option maxRecDepth 100000 in
/-- C20, at a concrete input: the session holds the unread byte 0xFF; a read with timeout
-1 returns 255. -/
theorem read_result_range_witness :
    ∃ w1, ws_readchar [] (demo_world.set_slot 0 demo_slot_ff) demo_scb (-1)
      = some (255, w1) :=
  ((read_result_range [] (demo_world.set_slot 0 demo_slot_ff) demo_scb (-1)).2.1
    demo_slot_ff 255 rfl (by decide) rfl).imp fun _ h => h.1

theorem ws_close_inv {w w1 : World} {scb scb1 : serial}
    (h : ws_close w scb = some (scb1, w1)) :
    w1.sockets = w.sockets ∧ w1.nsockets = w.nsockets := by
  unfold ws_close at h
  split at h
  · simp only [Option.some.injEq, Prod.mk.injEq] at h
    rw [← h.2]; exact ⟨rfl, rfl⟩
  · split at h
    · cases h
    · simp only [Option.some.injEq, Prod.mk.injEq] at h
      rw [← h.2]; exact ⟨rfl, rfl⟩

theorem ws_write_inv {w w1 : World} {scb : serial} {send_result r : Int}
    {buf : List uint8_t} {count : Nat}
    (h : ws_write send_result w scb buf count = some (r, w1)) :
    w1.sockets = w.sockets ∧ w1.nsockets = w.nsockets := by
  unfold ws_write at h
  split at h
  · cases h
  · simp only [Option.some.injEq, Prod.mk.injEq] at h
    rw [← h.2]; exact ⟨rfl, rfl⟩

theorem ws_flush_input_inv {w w1 : World} {scb : serial} {r : Int}
    (h : ws_flush_input w scb = some (r, w1)) :
    ∃ s, load w (get_ws_state scb) = some s ∧
      w1 = w.set_slot (get_ws_state scb).toNat { s with buffer_read := 0, buffer_write := 0 } := by
  unfold ws_flush_input at h
  cases hs : load w (get_ws_state scb) with
  | none => rw [hs] at h; cases h
  | some s =>
    simp only [hs, store_of_load hs, Option.some.injEq, Prod.mk.injEq] at h
    exact ⟨s, rfl, h.2.symm⟩

theorem slot_eq_of_sockets {w w1 : World} (h : w1.sockets = w.sockets) (k : Nat) :
    w1.slot k = w.slot k := by
  unfold World.slot
  rw [h]

/-- C16. Session independence: for two distinct slots i and j, a callback bound to slot i
(`onopen`, `onerror`, `onclose`, `onmessage`) and a call of `ws_readchar`,
`ws_write`, `ws_flush_input` or `ws_close` on the handle of slot i leave slot j
exactly as it was (for `ws_readchar`: as long as no callback bound to j itself
is dispatched during its sleeps). What a read on the handle of j returns is
fixed by slot j alone: -2 for a poll when it holds no unread byte, else the byte
at its own `buffer[buffer_read]`. -/
theorem session_independence (w : World) (i j : Nat) (scb : serial)
    (hij : i ≠ j) (hfd : get_ws_state scb = (i : Int)) :
    (∀ (cb : Callback) (w1 : World), cb.userData = (i : Int) → cb.run w = some w1 →
      w1.slot j = w.slot j) ∧
    (∀ (sched : List (List Callback)) (timeout r : Int) (w1 : World),
      (∀ cbs ∈ sched, ∀ cb ∈ cbs, (j : Int) ≠ cb.userData) →
      ws_readchar sched w scb timeout = some (r, w1) → w1.slot j = w.slot j) ∧
    (∀ (send_result r : Int) (buf : List uint8_t) (count : Nat) (w1 : World),
      ws_write send_result w scb buf count = some (r, w1) → w1.slot j = w.slot j) ∧
    (∀ (r : Int) (w1 : World), ws_flush_input w scb = some (r, w1) →
      w1.slot j = w.slot j) ∧
    (∀ (scb1 : serial) (w1 : World), ws_close w scb = some (scb1, w1) →
      w1.slot j = w.slot j) ∧
    (∀ (w1 : World) (scbj : serial) (s : ws_state), w1.slot j = w.slot j →
      get_ws_state scbj = (j : Int) → w.slot j = some s →
      (s.buffer_read = s.buffer_write →
        ∀ sched, ws_readchar sched w1 scbj 0 = some (-2, w1)) ∧
      (∀ b : uint8_t, s.buffer_read ≠ s.buffer_write →
        s.buffer[s.buffer_read]? = some (some b) →
        ∀ sched timeout, ∃ w2, ws_readchar sched w1 scbj timeout
          = some (byte_result b, w2))) := by
  have hji : (j : Int) ≠ (i : Int) := by omega
  refine ⟨?_, ?_, ?_, ?_, ?_, ?_⟩
  · intro cb w1 hcb h
    exact callback_run_other h j (by rw [hcb]; exact hji)
  · intro sched timeout r w1 hsched h
    obtain ⟨k, wk, _, hk, hcase⟩ := readchar_loop_shape _ _ sched _ w r w1 h
    have hwk : wk.slot j = w.slot j :=
      run_yields_other _ j hk (fun cbs hc => hsched cbs (List.mem_of_mem_take hc))
    rcases hcase with ⟨_, h1⟩ | ⟨s, b, hs, _, _, _, h1⟩
    · rw [h1]; exact hwk
    · rw [h1, ← hwk]
      rcases set_slot_cases hs { s with buffer_read := u32 (s.buffer_read + 1) } j
        with ⟨h2, _, _⟩ | ⟨_, h2⟩
      · rw [hfd] at h2; exact absurd h2 hji
      · exact h2
  · intro send_result r buf count w1 h
    exact slot_eq_of_sockets (ws_write_inv h).1 j
  · intro r w1 h
    obtain ⟨s, hs, h1⟩ := ws_flush_input_inv h
    rw [h1]
    rcases set_slot_cases hs { s with buffer_read := 0, buffer_write := 0 } j
      with ⟨h2, _, _⟩ | ⟨_, h2⟩
    · rw [hfd] at h2; exact absurd h2 hji
    · exact h2
  · intro scb1 w1 h
    exact slot_eq_of_sockets (ws_close_inv h).1 j
  · intro w1 scbj s hw1 hfdj hs
    have hl : load w1 (get_ws_state scbj) = some s := by
      rw [hfdj, load_natCast, hw1, hs]
    refine ⟨fun he sched => readchar_empty_poll w1 _ s sched _ hl he, ?_⟩
    intro b hne hb sched timeout
    exact ⟨_, readchar_pop w1 _ s b timeout sched _ hl hne hb⟩

set_option maxRecDepth 100000 in
/-- C16, at a concrete input: ten sessions are open; a message for slot 3 and a flush of
handle 23 leave slot 5 as it was. -/
theorem session_independence_witness :
    (∃ w1 : World, (Callback.message 3 ⟨[1, 2], false⟩).run demo_world10 = some w1 ∧
      w1.slot 5 = demo_world10.slot 5) ∧
    (∃ w1 : World, ws_flush_input demo_world10 ⟨103, 23⟩ = some (0, w1) ∧
      w1.slot 5 = demo_world10.slot 5) :=
  ⟨⟨_, rfl, (session_independence demo_world10 3 5 ⟨103, 23⟩ (by decide) rfl).1
      (Callback.message 3 ⟨[1, 2], false⟩) _ rfl rfl⟩,
   ⟨_, rfl, (session_independence demo_world10 3 5 ⟨103, 23⟩ (by decide) rfl).2.2.2.1
      0 _ rfl⟩⟩

/-! ## What a sequence of operations does to a session in use -/

theorem memcpy_inv {dest B : List cell} {off n : Nat} {src : List uint8_t}
    (h : memcpy dest off src n = some B) :
    off + n ≤ dest.length ∧ n ≤ src.length ∧ B.length = dest.length := by
  unfold memcpy at h
  by_cases hc : off + n ≤ dest.length ∧ n ≤ src.length
  · rw [if_pos hc] at h
    have hB := (Option.some.inj h).symm
    refine ⟨hc.1, hc.2, ?_⟩
    rw [hB]
    simp only [List.length_append, List.length_take, List.length_map, List.length_drop]
    omega
  · rw [if_neg hc] at h
    cases h

theorem xrealloc_length (block : List cell) (size : Nat) :
    (xrealloc block size).length = size := by
  unfold xrealloc
  simp only [List.length_append, List.length_take, List.length_replicate]
  omega

theorem onmessage_slot_inv {e : EmscriptenWebSocketMessageEvent} {s s1 : ws_state}
    (h : onmessage_slot e s = some s1) :
    ∃ B : List cell,
      s1 = { s with buffer := B, buffer_write := u32 (s.buffer_write + e.data.length) } ∧
      B.length = (if u32 (s.buffer_write + e.data.length) > s.buffer_alloc
        then u32 (s.buffer_write + e.data.length + 1000) else s.buffer.length) ∧
      s.buffer_write + e.data.length ≤ B.length := by
  unfold onmessage_slot EmscriptenWebSocketMessageEvent.numBytes at h
  simp only [] at h
  cases hm : memcpy (if u32 (s.buffer_write + e.data.length) > s.buffer_alloc then
      xrealloc s.buffer (u32 (s.buffer_write + e.data.length + 1000)) else s.buffer)
      s.buffer_write e.data e.data.length with
  | none => rw [hm] at h; cases h
  | some B =>
    rw [hm] at h
    obtain ⟨h1, _, h3⟩ := memcpy_inv hm
    refine ⟨B, (Option.some.inj h).symm, ?_, by rw [h3]; exact h1⟩
    rw [h3]
    split
    · exact xrealloc_length _ _
    · rfl

theorem slot_step_stable {s s1 : ws_state} (h : slot_step s s1) :
    s1.ws = s.ws ∧ s1.scb = s.scb ∧ s1.buffer_alloc = s.buffer_alloc ∧
      (s.opened = 1 → s1.opened = 1) := by
  cases h with
  | opened => exact ⟨rfl, rfl, rfl, fun _ => rfl⟩
  | message e _ _ hm =>
    obtain ⟨B, h1, _, _⟩ := onmessage_slot_inv hm
    subst h1
    exact ⟨rfl, rfl, rfl, fun h => h⟩
  | pop b _ _ => exact ⟨rfl, rfl, rfl, fun h => h⟩
  | flush => exact ⟨rfl, rfl, rfl, fun h => h⟩

theorem slot_steps_stable {s s1 : ws_state} (h : slot_steps s s1) :
    s1.ws = s.ws ∧ s1.scb = s.scb ∧ s1.buffer_alloc = s.buffer_alloc ∧
      (s.opened = 1 → s1.opened = 1) := by
  induction h with
  | refl => exact ⟨rfl, rfl, rfl, fun h => h⟩
  | tail _ hstep ih =>
    obtain ⟨a1, a2, a3, a4⟩ := ih
    obtain ⟨b1, b2, b3, b4⟩ := slot_step_stable hstep
    exact ⟨b1.trans a1, b2.trans a2, b3.trans a3, fun h => b4 (a4 h)⟩

theorem evolves_of_sockets {w w1 : World} (h : w1.sockets = w.sockets) : evolves w w1 :=
  fun k s hs => ⟨s, by rw [slot_eq_of_sockets h k]; exact hs, Relation.ReflTransGen.refl⟩

theorem readchar_evolves {sched : List (List Callback)} {w w1 : World} {scb : serial}
    {timeout r : Int} (h : ws_readchar sched w scb timeout = some (r, w1)) :
    evolves w w1 ∧ w1.nsockets = w.nsockets := by
  obtain ⟨k, wk, _, hk, hcase⟩ := readchar_loop_shape _ _ sched _ w r w1 h
  have h1 := run_yields_evolves _ hk
  have h2 := (run_yields_frame _ hk).2.1
  rcases hcase with ⟨_, hw⟩ | ⟨s, b, hs, hne, hb, _, hw⟩
  · rw [hw]; exact ⟨h1, h2⟩
  · rw [hw]
    exact ⟨evolves_trans h1 (evolves_set_slot hs (slot_step.pop s b hne hb)), h2⟩

/-- What a successful `ws_open` does to the table: `nsockets` grows by one, the slots in
use before only changed by steps, and the new slot is the fresh one, changed by
steps, with `opened` set. -/
theorem ws_open_evolves {is_supported : Bool} {new_ws : Int} {sched : List (List Callback)}
    {w w1 : World} {scb scb1 : serial} {name : String}
    (h : ws_open is_supported new_ws sched w scb name = some (0, scb1, w1)) :
    w1.nsockets = w.nsockets + 1 ∧
    (∀ k s, k < w.nsockets → w.slot k = some s →
      ∃ s1, w1.slot k = some s1 ∧ slot_steps s s1) ∧
    ∃ s1, w1.slot w.nsockets = some s1 ∧ slot_steps (fresh_slot scb new_ws) s1 ∧
      s1.opened ≠ 0 := by
  rcases ws_open_cases h with ⟨h0, _, _⟩ | ⟨_, _, _, s0, tr, k, wk, hs0, hk, hop, hw1⟩
  · exact absurd h0 (by decide)
  · have hev := run_yields_evolves _ hk
    have hns : wk.nsockets = w.nsockets := (run_yields_frame _ hk).2.1
    have hslot1 : ∀ j, w1.slot j = wk.slot j := fun j => by rw [hw1]; rfl
    refine ⟨by rw [hw1]; show wk.nsockets + 1 = _; rw [hns], ?_, ?_⟩
    · intro j s hj hs
      have : ({ w.set_slot w.nsockets (fresh_slot scb new_ws) with trace := tr } : World).slot j
          = some s := by
        have := slot_set_slot_other w w.nsockets j (fresh_slot scb new_ws) (by omega)
        rw [← hs, ← this]; rfl
      obtain ⟨s1, g1, g2⟩ := hev j s this
      exact ⟨s1, by rw [hslot1]; exact g1, g2⟩
    · have : ({ w.set_slot w.nsockets (fresh_slot scb new_ws) with trace := tr } : World).slot
          w.nsockets = some (fresh_slot scb new_ws) :=
        slot_set_slot_same hs0 _
      obtain ⟨s1, g1, g2⟩ := hev _ _ this
      obtain ⟨s2, g3, g4⟩ := hop
      rw [hns, g1] at g3
      cases g3
      exact ⟨s1, by rw [hslot1]; exact g1, g2, g4⟩

/-- One operation, seen from the slots in use: `nsockets` does not shrink, every slot in
use stays in use and only changes by steps, and a slot in use afterwards either
was in use before or is a fresh slot changed by steps. -/
theorem op_run_evolves {op : Op} {w w1 : World} (h : op.run w = some w1) :
    w.nsockets ≤ w1.nsockets ∧
    (∀ k s, k < w.nsockets → w.slot k = some s →
      ∃ s1, w1.slot k = some s1 ∧ slot_steps s s1) ∧
    (∀ k, w.nsockets ≤ k → k < w1.nsockets →
      ∃ scb new_ws s1, w1.slot k = some s1 ∧ slot_steps (fresh_slot scb new_ws) s1) := by
  have same : ∀ {w1 : World}, evolves w w1 → w1.nsockets = w.nsockets →
      w.nsockets ≤ w1.nsockets ∧
      (∀ k s, k < w.nsockets → w.slot k = some s →
        ∃ s1, w1.slot k = some s1 ∧ slot_steps s s1) ∧
      (∀ k, w.nsockets ≤ k → k < w1.nsockets →
        ∃ scb new_ws s1, w1.slot k = some s1 ∧ slot_steps (fresh_slot scb new_ws) s1) :=
    fun hev hn => ⟨by omega, fun k s _ hs => hev k s hs, fun k h1 h2 => by omega⟩
  cases op with
  | call_open c =>
    simp only [Op.run, Option.map_eq_some'] at h
    obtain ⟨⟨r, scb1, w2⟩, ho, hw⟩ := h
    simp only [] at hw
    subst hw
    rcases ws_open_cases ho with ⟨_, _, hw⟩ | ⟨hr, _, _, _⟩
    · rw [hw]; exact same (evolves_refl w) rfl
    · subst hr
      obtain ⟨h1, h2, s1, h3, h4, _⟩ := ws_open_evolves ho
      refine ⟨by omega, h2, ?_⟩
      intro k hk1 hk2
      have : k = w.nsockets := by omega
      subst this
      exact ⟨c.scb, c.new_ws, s1, h3, h4⟩
  | call_close scb =>
    simp only [Op.run, Option.map_eq_some'] at h
    obtain ⟨⟨scb1, w2⟩, ho, hw⟩ := h
    simp only [] at hw
    subst hw
    obtain ⟨h1, h2⟩ := ws_close_inv ho
    exact same (evolves_of_sockets h1) h2
  | call_readchar sched scb timeout =>
    simp only [Op.run, Option.map_eq_some'] at h
    obtain ⟨⟨r, w2⟩, ho, hw⟩ := h
    simp only [] at hw
    subst hw
    obtain ⟨h1, h2⟩ := readchar_evolves ho
    exact same h1 h2
  | call_write send_result scb buf count =>
    simp only [Op.run, Option.map_eq_some'] at h
    obtain ⟨⟨r, w2⟩, ho, hw⟩ := h
    simp only [] at hw
    subst hw
    obtain ⟨h1, h2⟩ := ws_write_inv ho
    exact same (evolves_of_sockets h1) h2
  | call_flush_input scb =>
    simp only [Op.run, Option.map_eq_some'] at h
    obtain ⟨⟨r, w2⟩, ho, hw⟩ := h
    simp only [] at hw
    subst hw
    obtain ⟨s, hs, hw⟩ := ws_flush_input_inv ho
    rw [hw]
    exact same (evolves_set_slot hs (slot_step.flush s)) rfl
  | event cb =>
    simp only [Op.run] at h
    exact same (callback_run_evolves h) (callback_run_frame h).2.1

theorem run_ops_evolves (ops : List Op) :
    ∀ {w w1 : World}, run_ops ops w = some w1 →
      w.nsockets ≤ w1.nsockets ∧
      (∀ k s, k < w.nsockets → w.slot k = some s →
        ∃ s1, w1.slot k = some s1 ∧ slot_steps s s1) ∧
      (∀ k, w.nsockets ≤ k → k < w1.nsockets →
        ∃ scb new_ws s1, w1.slot k = some s1 ∧ slot_steps (fresh_slot scb new_ws) s1) := by
  induction ops with
  | nil =>
    intro w w1 h
    simp only [run_ops, Option.some.injEq] at h
    subst h
    exact ⟨Nat.le_refl _, fun k s _ hs => ⟨s, hs, Relation.ReflTransGen.refl⟩,
      fun k h1 h2 => by omega⟩
  | cons op rest ih =>
    intro w w2 h
    rw [run_ops] at h
    cases ho : op.run w with
    | none => rw [ho] at h; cases h
    | some w1 =>
      rw [ho] at h
      obtain ⟨a1, a2, a3⟩ := op_run_evolves ho
      obtain ⟨b1, b2, b3⟩ := ih h
      refine ⟨by omega, ?_, ?_⟩
      · intro k s hk hs
        obtain ⟨s1, g1, g2⟩ := a2 k s hk hs
        obtain ⟨s2, g3, g4⟩ := b2 k s1 (by omega) g1
        exact ⟨s2, g3, Relation.ReflTransGen.trans g2 g4⟩
      · intro k hk1 hk2
        by_cases hk : k < w1.nsockets
        · obtain ⟨scb, new_ws, s1, g1, g2⟩ := a3 k hk1 hk
          obtain ⟨s2, g3, g4⟩ := b2 k s1 hk g1
          exact ⟨scb, new_ws, s2, g3, Relation.ReflTransGen.trans g2 g4⟩
        · exact b3 k (by omega) hk2

/-- C17. Establishment never regresses: when a session in use (slot k below `nsockets`)
has `opened` equal to 1, then after every sequence of later operations, calls of
`ws_open`, `ws_close`, `ws_readchar`, `ws_write`, `ws_flush_input` on any handles
and callbacks of any kind on any slots, the slot is still in use and `opened` is
still 1; a later `ws_open` writes the slot at index `nsockets` only. -/
theorem establishment_never_regresses (ops : List Op) (w w1 : World) (k : Nat)
    (s : ws_state) (hk : k < w.nsockets) (hs : w.slot k = some s) (hop : s.opened = 1)
    (hrun : run_ops ops w = some w1) :
    ∃ s1, w1.slot k = some s1 ∧ s1.opened = 1 ∧ k < w1.nsockets := by
  obtain ⟨h1, h2, _⟩ := run_ops_evolves ops hrun
  obtain ⟨s1, g1, g2⟩ := h2 k s hk hs
  exact ⟨s1, g1, (slot_steps_stable g2).2.2.2 hop, by omega⟩

set_option maxRecDepth 100000 in
/-- C17, at a concrete input: the session just opened goes through a message, an error
and a close callback, a read, a write, a flush, the opening of a second session
and its own close; `opened` is still 1. -/
theorem establishment_never_regresses_witness :
    ∃ w1 : World, run_ops demo_ops demo_world = some w1 ∧
      ∃ s1 : ws_state, w1.slot 0 = some s1 ∧ s1.opened = 1 ∧ 0 < w1.nsockets :=
  ⟨_, rfl,
    establishment_never_regresses demo_ops demo_world _ 0 demo_slot (by decide) rfl rfl rfl⟩

/-! ## The buffer of a session in use -/

theorem fresh_slot_inv (scb : serial) (new_ws : Int) : slot_inv (fresh_slot scb new_ws) := by
  unfold slot_inv fresh_slot xcalloc
  simp only [List.length_replicate]
  decide

theorem slot_step_inv {s s1 : ws_state} (hinv : slot_inv s) (h : slot_step s s1) :
    slot_inv s1 := by
  obtain ⟨i1, i2, i3, i4, i5⟩ := hinv
  cases h with
  | opened => exact ⟨i1, i2, i3, i4, i5⟩
  | message e _ _ hm =>
    obtain ⟨B, h1, h2, h3⟩ := onmessage_slot_inv hm
    subst h1
    unfold slot_inv
    simp only []
    rw [i1] at h2
    unfold u32 at h2 ⊢
    split at h2 <;> refine ⟨i1, ?_, ?_, ?_, ?_⟩ <;> omega
  | pop b hne hb =>
    unfold slot_inv
    simp only []
    unfold u32
    refine ⟨i1, i2, i3, i4, ?_⟩
    omega
  | flush => exact ⟨i1, i2, Nat.zero_le _, i4, Nat.le_refl _⟩

theorem slot_steps_inv {s s1 : ws_state} (hinv : slot_inv s) (h : slot_steps s s1) :
    slot_inv s1 := by
  induction h with
  | refl => exact hinv
  | tail _ hstep ih => exact slot_step_inv ih hstep

/-- In every world reached from program start, every session in use satisfies
`slot_inv`. -/
theorem reachable_slot_inv {ops : List Op} {w : World} {k : Nat} {s : ws_state}
    (hrun : run_ops ops world_init = some w) (hk : k < w.nsockets)
    (hs : w.slot k = some s) : slot_inv s := by
  obtain ⟨_, _, h3⟩ := run_ops_evolves ops hrun
  obtain ⟨scb, new_ws, s1, g1, g2⟩ := h3 k (Nat.zero_le _) hk
  rw [hs] at g1
  cases g1
  exact slot_steps_inv (fresh_slot_inv scb new_ws) g2

/-- C19, as the code has it. In every world reached from program start, by any sequence
of calls and callbacks, the block of every session in use holds at least 1000
cells and at least `buffer_write` cells, while `buffer_alloc` still records
1000; every index below `buffer_write`, so every index `ws_readchar` uses, lies
inside the block; and for every payload of length n with
buffer_write + n + 1000 < 2^32 the copy of `onmessage` lies inside the block it
copies to (the append is defined) and leaves `buffer_write` + n within the block. -/
theorem appends_stay_in_bounds (ops : List Op) (w : World) (k : Nat) (s : ws_state)
    (hrun : run_ops ops world_init = some w) (hk : k < w.nsockets)
    (hs : w.slot k = some s) :
    1000 ≤ s.buffer.length ∧ s.buffer_write ≤ s.buffer.length ∧
    s.buffer_alloc = 1000 ∧
    (∀ i, i < s.buffer_write → i < s.buffer.length) ∧
    (s.buffer_read < s.buffer_write → s.buffer_read < s.buffer.length) ∧
    ∀ e : EmscriptenWebSocketMessageEvent,
      s.buffer_write + e.data.length + 1000 < 2 ^ 32 →
      ∃ s1, onmessage_slot e s = some s1 ∧
        s1.buffer_write = s.buffer_write + e.data.length ∧
        s1.buffer_write ≤ s1.buffer.length ∧ 1000 ≤ s1.buffer.length := by
  obtain ⟨i1, i2, i3, i4, i5⟩ := reachable_slot_inv hrun hk hs
  refine ⟨i2, i3, i1, fun i hi => by omega, fun h => by omega, ?_⟩
  intro e he
  obtain ⟨B, h1, _, h3, h4⟩ := onmessage_slot_spec e s ⟨by omega, i3⟩ he
  exact ⟨_, h1, rfl, h4, by show 1000 ≤ B.length; omega⟩

set_option maxRecDepth 100000 in
/-- C19 as amended, at a concrete input: the world reached from program start by
`demo_open_op` and `demo_ops`, its second session (slot 1). -/
theorem appends_stay_in_bounds_witness :
    run_ops (demo_open_op :: demo_ops) world_init = some demo_world_ops ∧
      demo_world_ops.slot 1 = some demo_slot_second ∧
      1000 ≤ demo_slot_second.buffer.length ∧
      demo_slot_second.buffer_write ≤ demo_slot_second.buffer.length ∧
      demo_slot_second.buffer_alloc = 1000 :=
  ⟨rfl, rfl,
    (appends_stay_in_bounds (demo_open_op :: demo_ops) demo_world_ops 1 demo_slot_second
      rfl (by decide) rfl).1,
    (appends_stay_in_bounds (demo_open_op :: demo_ops) demo_world_ops 1 demo_slot_second
      rfl (by decide) rfl).2.1,
    (appends_stay_in_bounds (demo_open_op :: demo_ops) demo_world_ops 1 demo_slot_second
      rfl (by decide) rfl).2.2.1⟩

theorem onmessage_slot_wrap (e : EmscriptenWebSocketMessageEvent) (s : ws_state)
    (hw : s.buffer_write = 0) (ha : s.buffer_alloc = 1000)
    (hn : e.data.length = 4294966796) :
    s.buffer_write + e.numBytes < 2 ^ 32 ∧
      (xrealloc s.buffer (u32 (s.buffer_write + e.numBytes + 1000))).length = 500 ∧
      onmessage_slot e s = none := by
  have hu1 : u32 (0 + 4294966796) = 4294966796 := by decide
  have hu2 : u32 (0 + 4294966796 + 1000) = 500 := by decide
  unfold onmessage_slot EmscriptenWebSocketMessageEvent.numBytes
  simp only [hn, hw, ha, hu1, hu2]
  refine ⟨by decide, xrealloc_length _ _, ?_⟩
  unfold memcpy
  rw [if_neg]
  rw [if_pos (by decide), xrealloc_length]
  intro h
  exact absurd h.1 (by decide)

/-- C19 fails as stated: the session just opened is reached from program start, its
write offset is 0, and a payload of n = 2^32 - 500 bytes has 0 + n < 2^32; but
the size 0 + n + 1000 wraps to 500 in `uint32_t`, the block is reallocated to 500
cells, and the copy of n bytes does not lie inside it: the append is undefined. -/
theorem appends_stay_in_bounds_counterexample :
    run_ops [demo_open_op] world_init = some demo_world ∧
      0 < demo_world.nsockets ∧ demo_world.slot 0 = some demo_slot ∧
      demo_slot.buffer_write + demo_payload_huge.numBytes < 2 ^ 32 ∧
      (xrealloc demo_slot.buffer
        (u32 (demo_slot.buffer_write + demo_payload_huge.numBytes + 1000))).length = 500 ∧
      onmessage_slot demo_payload_huge demo_slot = none :=
  ⟨rfl, by decide, rfl,
    onmessage_slot_wrap demo_payload_huge demo_slot rfl rfl (List.length_replicate _ _)⟩

theorem onmessage_slot_length {e : EmscriptenWebSocketMessageEvent} {s s1 : ws_state}
    (h : onmessage_slot e s = some s1) :
    s1.buffer.length = (if u32 (s.buffer_write + e.data.length) > s.buffer_alloc
      then u32 (s.buffer_write + e.data.length + 1000) else s.buffer.length) := by
  obtain ⟨B, h1, h2, _⟩ := onmessage_slot_inv h
  subst h1
  exact h2

/-- A session as `ws_open` leaves it receives 1500 bytes, is flushed, and receives 1001
bytes: the cursors and the size of the block after each step. -/
theorem grow_flush_regrow (w : World) (scb : serial) (s : ws_state)
    (e1 e2 : EmscriptenWebSocketMessageEvent)
    (hs : load w (get_ws_state scb) = some s)
    (ha : s.buffer_alloc = 1000) (hl : s.buffer.length = 1000)
    (hr : s.buffer_read = 0) (hw : s.buffer_write = 0)
    (h1 : e1.data.length = 1500) (h2 : e2.data.length = 1001) :
    (run_ops [Op.event (Callback.message (get_ws_state scb) e1)] w).bind
        (cursors (get_ws_state scb)) = some (0, 1500, 1000) ∧
      (run_ops [Op.event (Callback.message (get_ws_state scb) e1)] w).bind
        (store_size (get_ws_state scb)) = some 2500 ∧
      (run_ops [Op.event (Callback.message (get_ws_state scb) e1),
        Op.call_flush_input scb] w).bind (store_size (get_ws_state scb)) = some 2500 ∧
      (run_ops [Op.event (Callback.message (get_ws_state scb) e1),
        Op.call_flush_input scb,
        Op.event (Callback.message (get_ws_state scb) e2)] w).bind
        (store_size (get_ws_state scb)) = some 2001 := by
  have hu1 : u32 (0 + 1500) > 1000 := by decide
  have hu2 : u32 (0 + 1500 + 1000) = 2500 := by decide
  have hu3 : u32 (0 + 1001) > 1000 := by decide
  have hu4 : u32 (0 + 1001 + 1000) = 2001 := by decide
  -- first message
  obtain ⟨B1, m1, _, _, _⟩ := onmessage_slot_spec e1 s ⟨by omega, by omega⟩
    (by rw [hw, h1]; decide)
  have hB1 : B1.length = 2500 := by
    have := onmessage_slot_length m1
    rw [hw, h1, ha, if_pos hu1, hu2] at this
    exact this
  have g1 : onmessage e1 (get_ws_state scb) w = some ((w.set_slot (get_ws_state scb).toNat
      { s with buffer := B1, buffer_write := s.buffer_write + e1.data.length })) := by
    unfold onmessage
    rw [hs]
    simp only [m1]
    exact store_of_load hs _
  have hs1 := load_set_slot_same hs
    { s with buffer := B1, buffer_write := s.buffer_write + e1.data.length }
  -- flush
  have g2 : ws_flush_input (w.set_slot (get_ws_state scb).toNat
      { s with buffer := B1, buffer_write := s.buffer_write + e1.data.length }) scb
      = some (0, w.set_slot (get_ws_state scb).toNat
        { s with buffer := B1, buffer_write := 0, buffer_read := 0 }) := by
    unfold ws_flush_input
    rw [hs1]
    simp only [store_of_load hs1, set_slot_set_slot]
  have hs2 := load_set_slot_same hs
    { s with buffer := B1, buffer_write := 0, buffer_read := 0 }
  -- second message
  obtain ⟨B3, m3, _, _, _⟩ := onmessage_slot_spec e2
    { s with buffer := B1, buffer_write := 0, buffer_read := 0 }
    ⟨by show s.buffer_alloc ≤ B1.length; omega, Nat.zero_le _⟩
    (by show 0 + e2.data.length + 1000 < 2 ^ 32; rw [h2]; decide)
  have hB3 : B3.length = 2001 := by
    have := onmessage_slot_length m3
    simp only [] at this
    rw [h2, ha, if_pos hu3, hu4] at this
    exact this
  have g3 : onmessage e2 (get_ws_state scb) (w.set_slot (get_ws_state scb).toNat
      { s with buffer := B1, buffer_write := 0, buffer_read := 0 })
      = some (w.set_slot (get_ws_state scb).toNat
        { s with buffer := B3, buffer_write := 0 + e2.data.length, buffer_read := 0 }) := by
    unfold onmessage
    rw [hs2]
    simp only [m3]
    rw [store_of_load hs2, set_slot_set_slot]
  have hs3 := load_set_slot_same hs
    { s with buffer := B3, buffer_write := 0 + e2.data.length, buffer_read := 0 }
  refine ⟨?_, ?_, ?_, ?_⟩
  · simp only [run_ops, Op.run, Callback.run, g1, Option.some_bind, cursors, hs1,
      Option.map_some']
    simp only [hr, hw, h1, ha]
  · simp only [run_ops, Op.run, Callback.run, g1, Option.some_bind, store_size, hs1,
      Option.map_some', hB1]
  · simp only [run_ops, Op.run, Callback.run, g1, g2, Option.some_bind, store_size, hs2,
      Option.map_some', hB1]
  · simp only [run_ops, Op.run, Callback.run, g1, g2, g3, Option.some_bind, store_size, hs3,
      Option.map_some', hB3]

/-- C14, at the failing input: the session just opened has cursors 0, 0 and
`buffer_alloc` 1000; after one message of 1500 bytes the block has 2500 cells
and `buffer_write` is 1500, but `buffer_alloc` still is 1000, so
`buffer_write <= buffer_alloc` no longer holds. -/
theorem cursor_invariant_broken :
    cursors 0 demo_world = some (0, 0, 1000) ∧
      (run_ops [Op.event (Callback.message 0 demo_payload)] demo_world).bind
        (cursors 0) = some (0, 1500, 1000) ∧
      (run_ops [Op.event (Callback.message 0 demo_payload)] demo_world).bind
        (store_size 0) = some 2500 ∧
      ¬ (1500 ≤ 1000) :=
  ⟨rfl,
    (grow_flush_regrow demo_world demo_scb demo_slot demo_payload demo_payload_1001 rfl rfl
      (List.length_replicate _ _) rfl rfl (List.length_replicate _ _)
      (List.length_replicate _ _)).1,
    (grow_flush_regrow demo_world demo_scb demo_slot demo_payload demo_payload_1001 rfl rfl
      (List.length_replicate _ _) rfl rfl (List.length_replicate _ _)
      (List.length_replicate _ _)).2.1,
    by decide⟩

/-- C18, at the failing input: on the session just opened (block of 1000 cells) a
message of 1500 bytes grows the block to 2500 cells; `ws_flush_input` keeps it; a
message of 1001 bytes then exceeds the recorded `buffer_alloc` of 1000, although
it fits the block, and the block is reallocated to 0 + 1001 + 1000 = 2001 cells:
it has shrunk. -/
theorem store_shrinks :
    store_size 0 demo_world = some 1000 ∧
      (run_ops [Op.event (Callback.message 0 demo_payload)] demo_world).bind
        (store_size 0) = some 2500 ∧
      (run_ops [Op.event (Callback.message 0 demo_payload),
        Op.call_flush_input demo_scb] demo_world).bind (store_size 0) = some 2500 ∧
      (run_ops [Op.event (Callback.message 0 demo_payload),
        Op.call_flush_input demo_scb,
        Op.event (Callback.message 0 demo_payload_1001)] demo_world).bind
        (store_size 0) = some 2001 :=
  ⟨by
      have : (xcalloc 1000 1).length = 1000 := List.length_replicate _ _
      show (load demo_world 0).map (fun s => s.buffer.length) = some 1000
      have hl : load demo_world 0 = some demo_slot := rfl
      rw [hl]
      exact congrArg some this,
    (grow_flush_regrow demo_world demo_scb demo_slot demo_payload demo_payload_1001 rfl rfl
      (List.length_replicate _ _) rfl rfl (List.length_replicate _ _)
      (List.length_replicate _ _)).2⟩

/-- The size of the block after `onmessage`: it is reallocated exactly when the new write
offset exceeds the recorded `buffer_alloc`, to `buffer_write + numBytes + 1000`
(in `uint32_t`), whatever its size was; `ws_readchar` and `ws_flush_input` do not
touch it. -/
theorem store_size_step {s s1 : ws_state} (h : slot_step s s1) :
    s1.buffer.length = s.buffer.length ∨
      ∃ e : EmscriptenWebSocketMessageEvent,
        u32 (s.buffer_write + e.numBytes) > s.buffer_alloc ∧
        s1.buffer.length = u32 (s.buffer_write + e.numBytes + 1000) := by
  cases h with
  | opened => exact Or.inl rfl
  | message e _ _ hm =>
    obtain ⟨B, h1, h2, _⟩ := onmessage_slot_inv hm
    subst h1
    by_cases hg : u32 (s.buffer_write + e.data.length) > s.buffer_alloc
    · right
      rw [if_pos hg] at h2
      exact ⟨e, hg, h2⟩
    · left
      rw [if_neg hg] at h2
      exact h2
  | pop b _ _ => exact Or.inl rfl
  | flush => exact Or.inl rfl

/-! ## Handles and slots -/

theorem ws_open_seq_handles (calls : List OpenCall) :
    ∀ {w0 w : World} {rets : List (Int × serial)},
      ws_open_seq calls w0 = some (rets, w) →
      w.nsockets = w0.nsockets + (rets.filter fun r => r.1 = 0).length ∧
      ∀ r ∈ rets, r.1 = 0 →
        ∃ i : Nat, r.2.fd = 20 + (i : Int) ∧ w0.nsockets ≤ i ∧ i < w.nsockets := by
  induction calls with
  | nil =>
    intro w0 w rets h
    simp only [ws_open_seq, Option.some.injEq, Prod.mk.injEq] at h
    obtain ⟨h1, h2⟩ := h
    subst h1 h2
    exact ⟨rfl, fun r hr => absurd hr (List.not_mem_nil r)⟩
  | cons c rest ih =>
    intro w0 w rets h
    rw [ws_open_seq] at h
    cases ho : ws_open c.is_supported c.new_ws c.sched w0 c.scb c.name with
    | none => rw [ho] at h; cases h
    | some res =>
      obtain ⟨r0, scb1, w1⟩ := res
      rw [ho] at h
      simp only [] at h
      cases hr : ws_open_seq rest w1 with
      | none => rw [hr] at h; cases h
      | some res2 =>
        obtain ⟨rs, w2⟩ := res2
        rw [hr] at h
        simp only [Option.some.injEq, Prod.mk.injEq] at h
        obtain ⟨h1, h2⟩ := h
        subst h1 h2
        obtain ⟨b1, b2⟩ := ih hr
        rcases ws_open_cases ho with ⟨hr0, _, hw⟩ | ⟨hr0, _, hscb, _⟩
        · subst hr0 hw
          refine ⟨?_, ?_⟩
          · rw [b1, List.filter_cons_of_neg (by simp)]
          · intro r hmem hz
            rcases List.mem_cons.mp hmem with h0 | h0
            · subst h0; simp at hz
            · exact b2 r h0 hz
        · subst hr0
          have hn := (ws_open_evolves ho).1
          refine ⟨?_, ?_⟩
          · rw [b1, hn, List.filter_cons_of_pos (by simp), List.length_cons]; omega
          · intro r hmem hz
            rcases List.mem_cons.mp hmem with h0 | h0
            · subst h0
              exact ⟨w0.nsockets, by rw [hscb], Nat.le_refl _, by omega⟩
            · obtain ⟨i, g1, g2, g3⟩ := b2 r h0 hz
              exact ⟨i, g1, by omega, g3⟩

/-! ## Payloads at the edge of `uint32_t` -/

/-- A payload of 2^32 - 500 bytes for a slot whose write offset is below 500: the sum
`buffer_write + numBytes` fits `uint32_t`, the size `buffer_write + numBytes + 1000`
wraps, the block is reallocated to fewer cells than the payload, and the copy does
not lie inside it: the append is undefined, for the slot, the callback and a
dispatch of it. -/
theorem onmessage_wrap_undefined (w : World) (p : Int) (s : ws_state)
    (e : EmscriptenWebSocketMessageEvent)
    (hs : load w p = some s) (hw : s.buffer_write < 500) (ha : s.buffer_alloc = 1000)
    (hn : e.data.length = 4294966796) :
    s.buffer_write + e.numBytes < 2 ^ 32 ∧
      onmessage_slot e s = none ∧
      onmessage e p w = none ∧
      dispatch ([e].map (Callback.message p)) w = none := by
  have hslot : onmessage_slot e s = none := by
    unfold onmessage_slot EmscriptenWebSocketMessageEvent.numBytes
    have hc : u32 (s.buffer_write + e.data.length) > s.buffer_alloc := by
      rw [hn, ha]; unfold u32; omega
    simp only [hc, if_true]
    unfold memcpy
    rw [if_neg]
    intro h
    have h1 := h.1
    rw [xrealloc_length, hn] at h1
    unfold u32 at h1
    omega
  have hmsg : onmessage e p w = none := by
    unfold onmessage
    rw [hs]
    simp only [hslot]
  refine ⟨?_, hslot, hmsg, ?_⟩
  · unfold EmscriptenWebSocketMessageEvent.numBytes
    rw [hn]; omega
  · simp only [List.map_cons, List.map_nil, dispatch, Callback.run, hmsg, Option.none_bind]

theorem delivered_bytes_single (e : EmscriptenWebSocketMessageEvent) :
    (delivered_bytes [e]).length = e.data.length := by
  simp [delivered_bytes]

/-- C1 fails as stated: the session just opened has an empty buffer (both cursors 0); one
`onmessage` callback with a payload of L = 2^32 - 500 bytes is delivered to it.
The delivery is undefined (the block is reallocated to 500 cells and the copy
leaves it), so no run of L reads returns the delivered bytes. -/
theorem fifo_delivery_counterexample :
    load demo_world (get_ws_state demo_scb) = some demo_slot ∧
      demo_slot.buffer_read = 0 ∧ demo_slot.buffer_write = 0 ∧
      (delivered_bytes [demo_payload_huge]).length = 4294966796 ∧
      dispatch ([demo_payload_huge].map (Callback.message (get_ws_state demo_scb)))
        demo_world = none :=
  ⟨rfl, rfl, rfl,
    (delivered_bytes_single demo_payload_huge).trans (List.length_replicate _ _),
    (onmessage_wrap_undefined demo_world (get_ws_state demo_scb) demo_slot demo_payload_huge
      rfl (by decide) rfl (List.length_replicate _ _)).2.2.2⟩

set_option maxRecDepth 100000 in
/-- C2 fails as stated: the session holds one unread byte (read offset 0 <= write offset
1, block of 1000 cells); `onmessage` with a payload of n = 2^32 - 500 bytes is
undefined on it: 1 + n fits `uint32_t`, but the block is reallocated to
1 + n + 1000 - 2^32 = 501 cells and the copy at offset 1 leaves it, so the payload
is not stored at [w, w + n). -/
theorem append_across_growth_counterexample :
    load (demo_world.set_slot 0 demo_slot_nine) (get_ws_state demo_scb)
        = some demo_slot_nine ∧
      demo_slot_nine.buffer_read ≤ demo_slot_nine.buffer_write ∧
      demo_slot_nine.buffer_write + demo_payload_huge.numBytes < 2 ^ 32 ∧
      onmessage demo_payload_huge (get_ws_state demo_scb)
        (demo_world.set_slot 0 demo_slot_nine) = none :=
  ⟨rfl, by decide,
    (onmessage_wrap_undefined (demo_world.set_slot 0 demo_slot_nine) (get_ws_state demo_scb)
      demo_slot_nine demo_payload_huge rfl (by decide) rfl (List.length_replicate _ _)).1,
    (onmessage_wrap_undefined (demo_world.set_slot 0 demo_slot_nine) (get_ws_state demo_scb)
      demo_slot_nine demo_payload_huge rfl (by decide) rfl (List.length_replicate _ _)).2.2.1⟩

/-! ## Handles outside the table -/

/-- For a handle outside 20..29 the pointer `&sockets[fd - 20]` lies outside the table:
`ws_flush_input`, `ws_readchar` and `ws_write` dereference it all the same, so they
have no defined result (they do not return an error). -/
theorem out_of_table_undefined (w : World) (scb : serial)
    (h : scb.fd < 20 ∨ 20 + (MAX_SOCKETS : Int) ≤ scb.fd) :
    load w (get_ws_state scb) = none ∧
      ws_flush_input w scb = none ∧
      (∀ sched timeout, ws_readchar sched w scb timeout = none) ∧
      (∀ send_result buf count, ws_write send_result w scb buf count = none) := by
  have hl : load w (get_ws_state scb) = none := by
    unfold load get_ws_state
    split
    · rename_i hp
      unfold World.slot
      rw [if_neg]
      unfold MAX_SOCKETS at h ⊢
      omega
    · rfl
  refine ⟨hl, ?_, ?_, ?_⟩
  · unfold ws_flush_input
    rw [hl]
  · intro sched timeout
    have hit : ∀ c, ws_readchar_iter (get_ws_state scb) timeout c w = none := by
      intro c
      unfold ws_readchar_iter
      rw [hl]
    unfold ws_readchar
    cases sched with
    | nil => rw [ws_readchar_loop, hit]
    | cons cbs rest => rw [ws_readchar_loop, hit]
  · intro send_result buf count
    unfold ws_write
    rw [hl]

set_option maxRecDepth 100000 in
/-- C10, at the failing inputs. The session of `demo_world` is closed; its handle is now
-1 and `get_ws_state` yields `&sockets[-21]`. A second `ws_close` is stopped by
its test of `fd == -1`, but `ws_flush_input`, `ws_readchar` and `ws_write` have no
such test and no defined result: they use the slot outside the table instead of
returning an error. The handle 30 is not even reported by the range test of
`get_ws_state`, though `&sockets[10]` lies outside the table as well. And on the
handle 25 at program start, whose slot was never opened, `ws_flush_input`
returns 0 like on a session. -/
theorem invalid_handle_dereferenced :
    ws_close demo_world demo_scb = some (demo_scb_closed, demo_world_one_closed) ∧
      ws_close demo_world_one_closed demo_scb_closed
        = some (demo_scb_closed, demo_world_one_closed) ∧
      get_ws_state demo_scb_closed = -21 ∧
      load demo_world_one_closed (get_ws_state demo_scb_closed) = none ∧
      ws_flush_input demo_world_one_closed demo_scb_closed = none ∧
      (∀ sched timeout, ws_readchar sched demo_world_one_closed demo_scb_closed timeout
        = none) ∧
      (∀ send_result buf count,
        ws_write send_result demo_world_one_closed demo_scb_closed buf count = none) ∧
      get_ws_state_unexpected ⟨100, 30⟩ = false ∧ get_ws_state ⟨100, 30⟩ = 10 ∧
      ws_flush_input demo_world ⟨100, 30⟩ = none ∧
      get_ws_state_unexpected ⟨0, 25⟩ = false ∧ world_init.nsockets = 0 ∧
      ws_flush_input world_init ⟨0, 25⟩ = some (0, world_init) :=
  ⟨rfl, rfl, rfl,
    (out_of_table_undefined demo_world_one_closed demo_scb_closed (Or.inl (by decide))).1,
    (out_of_table_undefined demo_world_one_closed demo_scb_closed (Or.inl (by decide))).2.1,
    (out_of_table_undefined demo_world_one_closed demo_scb_closed (Or.inl (by decide))).2.2.1,
    (out_of_table_undefined demo_world_one_closed demo_scb_closed (Or.inl (by decide))).2.2.2,
    by decide, rfl,
    (out_of_table_undefined demo_world ⟨100, 30⟩ (Or.inr (by decide))).2.1,
    by decide, rfl, by decide⟩

/-! ## Handles over a whole history -/

theorem op_run_nsockets {op : Op} {w w1 : World} (h : op.run w = some w1) :
    w1.nsockets = w.nsockets + (op.opened w).length ∧
      (op.opened w).length ≤ 1 ∧
      ∀ hd ∈ op.opened w, hd.fd = 20 + (w.nsockets : Int) := by
  cases op with
  | call_open c =>
    simp only [Op.run, Option.map_eq_some'] at h
    obtain ⟨⟨r, scb1, w2⟩, ho, hw⟩ := h
    simp only [] at hw
    subst hw
    simp only [Op.opened, ho]
    rcases ws_open_cases ho with ⟨hr, _, hw⟩ | ⟨hr, _, hscb, _⟩
    · subst hr
      rw [hw]
      simp
    · subst hr
      have hn := (ws_open_evolves ho).1
      simp only [if_true, List.length_singleton, List.mem_singleton]
      exact ⟨hn, Nat.le_refl _, fun hd hhd => by rw [hhd, hscb]⟩
  | call_close scb =>
    simp only [Op.run, Option.map_eq_some'] at h
    obtain ⟨⟨scb1, w2⟩, ho, hw⟩ := h
    simp only [] at hw
    subst hw
    simp [Op.opened, (ws_close_inv ho).2]
  | call_readchar sched scb timeout =>
    simp only [Op.run, Option.map_eq_some'] at h
    obtain ⟨⟨r, w2⟩, ho, hw⟩ := h
    simp only [] at hw
    subst hw
    simp [Op.opened, (readchar_evolves ho).2]
  | call_write send_result scb buf count =>
    simp only [Op.run, Option.map_eq_some'] at h
    obtain ⟨⟨r, w2⟩, ho, hw⟩ := h
    simp only [] at hw
    subst hw
    simp [Op.opened, (ws_write_inv ho).2]
  | call_flush_input scb =>
    simp only [Op.run, Option.map_eq_some'] at h
    obtain ⟨⟨r, w2⟩, ho, hw⟩ := h
    simp only [] at hw
    subst hw
    obtain ⟨s, _, hw⟩ := ws_flush_input_inv ho
    rw [hw]
    simp [Op.opened, World.set_slot]
  | event cb =>
    simp only [Op.run] at h
    simp [Op.opened, (callback_run_frame h).2.1]

/-- Over any sequence of operations `nsockets` counts the successful calls of `ws_open`,
and the handle of each of them is 20 plus the value `nsockets` had at its call. -/
theorem run_ops_handles (ops : List Op) :
    ∀ {w0 w : World}, run_ops ops w0 = some w →
      w.nsockets = w0.nsockets + (opened_handles ops w0).length ∧
      ∀ hd ∈ opened_handles ops w0,
        ∃ i : Nat, hd.fd = 20 + (i : Int) ∧ w0.nsockets ≤ i ∧ i < w.nsockets := by
  induction ops with
  | nil =>
    intro w0 w h
    simp only [run_ops, Option.some.injEq] at h
    subst h
    exact ⟨rfl, fun hd hhd => absurd hhd (List.not_mem_nil hd)⟩
  | cons op rest ih =>
    intro w0 w h
    rw [run_ops] at h
    cases ho : op.run w0 with
    | none => rw [ho] at h; cases h
    | some w1 =>
      rw [ho] at h
      obtain ⟨a1, _, a2⟩ := op_run_nsockets ho
      obtain ⟨b1, b2⟩ := ih h
      simp only [opened_handles, ho, List.length_append, List.mem_append]
      refine ⟨by omega, ?_⟩
      intro hd hhd
      rcases hhd with h0 | h0
      · have hpos : 0 < (op.opened w0).length := List.length_pos_of_mem h0
        exact ⟨w0.nsockets, a2 hd h0, Nat.le_refl _, by omega⟩
      · obtain ⟨i, g1, g2, g3⟩ := b2 hd h0
        exact ⟨i, g1, by omega, g3⟩

/-- The handles handed out in any sequence of operations, in order: the one at position
j is 20 plus `nsockets` at the start plus j. -/
theorem run_ops_handle_at (ops : List Op) :
    ∀ {w0 w : World}, run_ops ops w0 = some w →
      ∀ (j : Nat) (hd : serial), (opened_handles ops w0)[j]? = some hd →
        hd.fd = 20 + ((w0.nsockets + j : Nat) : Int) := by
  induction ops with
  | nil =>
    intro w0 w _ j hd hj
    simp [opened_handles] at hj
  | cons op rest ih =>
    intro w0 w h j hd hj
    rw [run_ops] at h
    cases ho : op.run w0 with
    | none => rw [ho] at h; cases h
    | some w1 =>
      rw [ho] at h
      obtain ⟨a1, a2, a3⟩ := op_run_nsockets ho
      simp only [opened_handles, ho] at hj
      by_cases hlt : j < (op.opened w0).length
      · rw [List.getElem?_append_left hlt] at hj
        have hmem : hd ∈ op.opened w0 := List.getElem?_mem hj
        have hj0 : j = 0 := by omega
        rw [a3 hd hmem, hj0]
        rfl
      · rw [List.getElem?_append_right (by omega)] at hj
        have := ih h _ hd hj
        rw [this, a1]
        congr 2
        omega

/-- C15. Handle/slot round trip: after any history of operations since program start,
calls of all five adapter functions on any handles and callbacks on any slots,
in which k calls of `ws_open` have succeeded, the next successful `ws_open`
finds k < 10, assigns the handle 20 + k, and `get_ws_state` on that handle is the
pointer to slot k, computed as `fd - 20`; slot k is the slot this call set up
(its socket and its `struct serial`), and it stays the slot of that socket under
every later sequence of operations; the handle differs from the handle of every
session opened before, closed or not. In the history itself the handle handed out
by the (j+1)-th successful `ws_open` is 20 + j, so any two of them differ. -/
theorem handle_slot_round_trip (pre : List Op) (c : OpenCall) (w w1 : World)
    (scb1 : serial) (k : Nat)
    (hpre : run_ops pre world_init = some w)
    (hk : (opened_handles pre world_init).length = k)
    (hopen : ws_open c.is_supported c.new_ws c.sched w c.scb c.name = some (0, scb1, w1)) :
    k < MAX_SOCKETS ∧ scb1.fd = 20 + (k : Int) ∧ get_ws_state scb1 = (k : Int) ∧
    (∃ s, load w1 (get_ws_state scb1) = some s ∧ w1.slot k = some s ∧
      slot_steps (fresh_slot c.scb c.new_ws) s ∧ s.ws = c.new_ws ∧ s.scb = c.scb.addr) ∧
    (∀ (later : List Op) (w2 : World), run_ops later w1 = some w2 →
      ∃ s2, load w2 (get_ws_state scb1) = some s2 ∧ s2.ws = c.new_ws ∧
        s2.scb = c.scb.addr) ∧
    (∀ hd ∈ opened_handles pre world_init, hd.fd ≠ scb1.fd) ∧
    (∀ (j : Nat) (hd : serial), (opened_handles pre world_init)[j]? = some hd →
      hd.fd = 20 + (j : Int)) ∧
    (∀ (i j : Nat) (a b : serial), i ≠ j →
      (opened_handles pre world_init)[i]? = some a →
      (opened_handles pre world_init)[j]? = some b → a.fd ≠ b.fd) := by
  have hat : ∀ (j : Nat) (hd : serial), (opened_handles pre world_init)[j]? = some hd →
      hd.fd = 20 + (j : Int) := by
    intro j hd hj
    have := run_ops_handle_at pre hpre j hd hj
    rw [this]
    show 20 + ((0 + j : Nat) : Int) = 20 + (j : Int)
    rw [Nat.zero_add]
  obtain ⟨h1, h2⟩ := run_ops_handles pre hpre
  have hwk : w.nsockets = k := by
    rw [h1, hk]; show 0 + k = k; omega
  obtain ⟨hn1, _, s1, g1, g2, _⟩ := ws_open_evolves hopen
  rcases ws_open_cases hopen with ⟨h0, _, _⟩ | ⟨_, hlt, hscb, _⟩
  · exact absurd h0 (by decide)
  · have hfd : scb1.fd = 20 + (k : Int) := by rw [hscb, hwk]
    have hp : get_ws_state scb1 = (k : Int) := by unfold get_ws_state; omega
    rw [hwk] at g1
    obtain ⟨a1, a2, _, _⟩ := slot_steps_stable g2
    refine ⟨by omega, hfd, hp, ⟨s1, by rw [hp, load_natCast]; exact g1, g1, g2, a1, a2⟩,
      ?_, ?_, hat, ?_⟩
    · intro later w2 hrun
      obtain ⟨_, f2, _⟩ := run_ops_evolves later hrun
      obtain ⟨s2, e1, e2⟩ := f2 k s1 (by omega) g1
      obtain ⟨c1, c2, _, _⟩ := slot_steps_stable e2
      exact ⟨s2, by rw [hp, load_natCast]; exact e1, c1.trans a1, c2.trans a2⟩
    · intro hd hhd
      obtain ⟨i, e1, _, e3⟩ := h2 hd hhd
      rw [e1, hfd]
      omega
    · intro i j a b hij ha hb
      rw [hat i a ha, hat j b hb]
      omega

set_option maxRecDepth 100000 in
/-- C15, at a concrete input: the history is `demo_open_op` and `demo_ops` (a session is
opened, used, a second one is opened, the first is closed); the third `ws_open`
gets the handle 22, which leads to slot 2, whose socket is the one just created. -/
theorem handle_slot_round_trip_witness :
    ws_open true 9 [[Callback.opened 2]] demo_world_ops ⟨102, -1⟩ "ws://third"
        = some (0, ⟨102, 22⟩, demo_world_third) ∧
      (opened_handles (demo_open_op :: demo_ops) world_init).length = 2 ∧
      get_ws_state ⟨102, 22⟩ = ((2 : Nat) : Int) ∧
      (∃ s, load demo_world_third (get_ws_state ⟨102, 22⟩) = some s ∧
        demo_world_third.slot 2 = some s ∧
        slot_steps (fresh_slot ⟨102, -1⟩ 9) s ∧ s.ws = 9 ∧ s.scb = 102) ∧
      (∀ hd ∈ opened_handles (demo_open_op :: demo_ops) world_init,
        hd.fd ≠ (⟨102, 22⟩ : serial).fd) :=
  ⟨rfl, rfl,
    (handle_slot_round_trip (demo_open_op :: demo_ops)
      ⟨true, 9, [[Callback.opened 2]], ⟨102, -1⟩, "ws://third"⟩
      demo_world_ops demo_world_third ⟨102, 22⟩ 2 rfl rfl rfl).2.2.1,
    (handle_slot_round_trip (demo_open_op :: demo_ops)
      ⟨true, 9, [[Callback.opened 2]], ⟨102, -1⟩, "ws://third"⟩
      demo_world_ops demo_world_third ⟨102, 22⟩ 2 rfl rfl rfl).2.2.2.1,
    (handle_slot_round_trip (demo_open_op :: demo_ops)
      ⟨true, 9, [[Callback.opened 2]], ⟨102, -1⟩, "ws://third"⟩
      demo_world_ops demo_world_third ⟨102, 22⟩ 2 rfl rfl rfl).2.2.2.2.2.1⟩

end SerEmscripten
